import Mathlib

/-!
Verification of the `TestGrid` admin data-grid component
(`src/app/test-grid/page.tsx` of ozkan33/3B-Functional-Site) against its
natural-language specification.

The component is a React client component; all of the logic under
verification is plain data manipulation (row/column arrays, per-row comment
maps, nested sub-grid records, a heuristic Excel-sheet parser, and
JSON-based localStorage persistence).  We shallowly embed that logic:

* JavaScript runtime values that can appear in the data (strings, numbers,
  booleans, `null`, `undefined`, `Date` objects, function values, arrays,
  plain objects) are modelled by the inductive type `JsVal`.  JS numbers are
  modelled by `Int`: every number appearing in this component is an integer
  (row ids, row indices, timestamps).
* JS objects used as records/dictionaries are modelled as association lists
  `List (String × JsVal)` with the object-literal update semantics:
  spread-update (`{...o, k: v}`) replaces the value of an existing key in
  place and appends a fresh key at the end (`setField`), `delete o[k]`
  removes the key (`delField`), property lookup is `getField`.
* `JSON.stringify` / `JSON.parse` are modelled by `jsonOfJs` / `jsOfJson`
  over a separate JSON tree type `Json`; `stringify` drops function-valued
  and `undefined` object fields (rendering them as `null` inside arrays)
  and serializes `Date`s to strings, exactly as the JS builtins do.
* String primitives (`trim`, `toLowerCase`, `replace(/\s+/g, '_')`,
  decimal rendering of numbers) are implemented on character lists so that
  the proofs can reason about them directly.
* `localStorage` is modelled by a `Storage` record holding the three keys
  this component ever writes (`scorecards`, `scorecardComments`,
  `retailers`); a stored value is absent, invalid JSON, or a JSON tree.
* Excel sheets (the result of `XLSX.utils.sheet_to_json(ws, {header: 1,
  defval: ''})`) are `List (List Cell)` where a `Cell` is a string or a
  number; the dynamic-typing errors of the import code (calling `.trim()`
  or `.charAt()` on a number) are modelled by `Except String`.

Each definition is translated from the source component; doc comments cite
the source function names.
-/

set_option maxRecDepth 4000

/-! ## JavaScript object model -/

/-- Runtime JS values appearing in the component's data. -/
inductive JsVal where
  | null
  | undef
  | bool (b : Bool)
  | num (n : Int)
  | str (s : String)
  | date (millis : Int)
  | fn (id : Nat)
  | arr (elems : List JsVal)
  | obj (fields : List (String × JsVal))

/-- JSON trees (the image of `JSON.stringify`). -/
inductive Json where
  | null
  | bool (b : Bool)
  | num (n : Int)
  | str (s : String)
  | arr (elems : List Json)
  | obj (fields : List (String × Json))

mutual

/-- Structural (boolean) equality on `JsVal`. -/
def jsvBeq : JsVal → JsVal → Bool
  | .null, .null => true
  | .undef, .undef => true
  | .bool a, .bool b => a == b
  | .num a, .num b => a == b
  | .str a, .str b => a == b
  | .date a, .date b => a == b
  | .fn a, .fn b => a == b
  | .arr xs, .arr ys => jsvBeqList xs ys
  | .obj fs, .obj gs => jsvBeqFields fs gs
  | _, _ => false

/-- Elementwise `jsvBeq` on lists. -/
def jsvBeqList : List JsVal → List JsVal → Bool
  | [], [] => true
  | x :: xs, y :: ys => jsvBeq x y && jsvBeqList xs ys
  | _, _ => false

/-- Fieldwise `jsvBeq` on association lists. -/
def jsvBeqFields : List (String × JsVal) → List (String × JsVal) → Bool
  | [], [] => true
  | (k, v) :: fs, (k2, v2) :: gs => k == k2 && jsvBeq v v2 && jsvBeqFields fs gs
  | _, _ => false

end

/-- Recursion/induction principle for the nested inductive `JsVal`. -/
theorem jsvInd (P : JsVal → Prop)
    (hnull : P .null) (hundef : P .undef)
    (hbool : ∀ b, P (.bool b)) (hnum : ∀ n, P (.num n))
    (hstr : ∀ s, P (.str s)) (hdate : ∀ d, P (.date d))
    (hfn : ∀ i, P (.fn i))
    (harr : ∀ xs, (∀ x ∈ xs, P x) → P (.arr xs))
    (hobj : ∀ fs, (∀ kv ∈ fs, P kv.2) → P (.obj fs)) :
    ∀ v, P v
  | .null => hnull
  | .undef => hundef
  | .bool b => hbool b
  | .num n => hnum n
  | .str s => hstr s
  | .date d => hdate d
  | .fn i => hfn i
  | .arr xs => harr xs (fun x hx =>
      jsvInd P hnull hundef hbool hnum hstr hdate hfn harr hobj x)
  | .obj fs => hobj fs (fun kv hkv =>
      jsvInd P hnull hundef hbool hnum hstr hdate hfn harr hobj kv.2)
decreasing_by
  all_goals simp_wf
  · have h1 := List.sizeOf_lt_of_mem hx
    omega
  · have h1 := List.sizeOf_lt_of_mem hkv
    obtain ⟨k, v⟩ := kv
    simp at h1 ⊢
    omega

theorem jsvBeq_iff : ∀ a b, jsvBeq a b = true ↔ a = b := by
  intro a
  induction a using jsvInd with
  | hnull => intro b; cases b <;> simp [jsvBeq]
  | hundef => intro b; cases b <;> simp [jsvBeq]
  | hbool x => intro b; cases b <;> simp [jsvBeq]
  | hnum x => intro b; cases b <;> simp [jsvBeq]
  | hstr x => intro b; cases b <;> simp [jsvBeq]
  | hdate x => intro b; cases b <;> simp [jsvBeq]
  | hfn x => intro b; cases b <;> simp [jsvBeq]
  | harr xs ih =>
      intro b; cases b <;> simp [jsvBeq]
      rename_i ys
      induction xs generalizing ys with
      | nil => cases ys <;> simp [jsvBeqList]
      | cons x xs ihl =>
          cases ys with
          | nil => simp [jsvBeqList]
          | cons y ys =>
              simp [jsvBeqList]
              constructor
              · rintro ⟨h1, h2⟩
                exact ⟨(ih x (by simp) y).mp h1,
                  (ihl (fun z hz => ih z (by simp [hz])) ys).mp h2⟩
              · rintro ⟨h1, h2⟩
                exact ⟨(ih x (by simp) y).mpr h1,
                  (ihl (fun z hz => ih z (by simp [hz])) ys).mpr h2⟩
  | hobj fs ih =>
      intro b; cases b <;> simp [jsvBeq]
      rename_i gs
      induction fs generalizing gs with
      | nil => cases gs <;> simp [jsvBeqFields]
      | cons f fs ihl =>
          cases gs with
          | nil => simp [jsvBeqFields]
          | cons g gs =>
              obtain ⟨k, v⟩ := f
              obtain ⟨k2, v2⟩ := g
              simp [jsvBeqFields]
              constructor
              · rintro ⟨⟨h0, h1⟩, h2⟩
                exact ⟨⟨h0, (ih (k, v) (by simp) v2).mp h1⟩,
                  (ihl (fun z hz => ih z (by simp [hz])) gs).mp h2⟩
              · rintro ⟨⟨h0, h1⟩, h2⟩
                exact ⟨⟨h0, (ih (k, v) (by simp) v2).mpr h1⟩,
                  (ihl (fun z hz => ih z (by simp [hz])) gs).mpr h2⟩

instance : DecidableEq JsVal := fun a b =>
  decidable_of_iff (jsvBeq a b = true) (jsvBeq_iff a b)

mutual

/-- Structural (boolean) equality on `Json`. -/
def jsonBeq : Json → Json → Bool
  | .null, .null => true
  | .bool a, .bool b => a == b
  | .num a, .num b => a == b
  | .str a, .str b => a == b
  | .arr xs, .arr ys => jsonBeqList xs ys
  | .obj fs, .obj gs => jsonBeqFields fs gs
  | _, _ => false

/-- Elementwise `jsonBeq` on lists. -/
def jsonBeqList : List Json → List Json → Bool
  | [], [] => true
  | x :: xs, y :: ys => jsonBeq x y && jsonBeqList xs ys
  | _, _ => false

/-- Fieldwise `jsonBeq` on association lists. -/
def jsonBeqFields : List (String × Json) → List (String × Json) → Bool
  | [], [] => true
  | (k, v) :: fs, (k2, v2) :: gs => k == k2 && jsonBeq v v2 && jsonBeqFields fs gs
  | _, _ => false

end

/-- Recursion/induction principle for the nested inductive `Json`. -/
theorem jsonInd (P : Json → Prop)
    (hnull : P .null)
    (hbool : ∀ b, P (.bool b)) (hnum : ∀ n, P (.num n))
    (hstr : ∀ s, P (.str s))
    (harr : ∀ xs, (∀ x ∈ xs, P x) → P (.arr xs))
    (hobj : ∀ fs, (∀ kv ∈ fs, P kv.2) → P (.obj fs)) :
    ∀ v, P v
  | .null => hnull
  | .bool b => hbool b
  | .num n => hnum n
  | .str s => hstr s
  | .arr xs => harr xs (fun x hx =>
      jsonInd P hnull hbool hnum hstr harr hobj x)
  | .obj fs => hobj fs (fun kv hkv =>
      jsonInd P hnull hbool hnum hstr harr hobj kv.2)
decreasing_by
  all_goals simp_wf
  · have h1 := List.sizeOf_lt_of_mem hx
    omega
  · have h1 := List.sizeOf_lt_of_mem hkv
    obtain ⟨k, v⟩ := kv
    simp at h1 ⊢
    omega

theorem jsonBeq_iff : ∀ a b, jsonBeq a b = true ↔ a = b := by
  intro a
  induction a using jsonInd with
  | hnull => intro b; cases b <;> simp [jsonBeq]
  | hbool x => intro b; cases b <;> simp [jsonBeq]
  | hnum x => intro b; cases b <;> simp [jsonBeq]
  | hstr x => intro b; cases b <;> simp [jsonBeq]
  | harr xs ih =>
      intro b; cases b <;> simp [jsonBeq]
      rename_i ys
      induction xs generalizing ys with
      | nil => cases ys <;> simp [jsonBeqList]
      | cons x xs ihl =>
          cases ys with
          | nil => simp [jsonBeqList]
          | cons y ys =>
              simp [jsonBeqList]
              constructor
              · rintro ⟨h1, h2⟩
                exact ⟨(ih x (by simp) y).mp h1,
                  (ihl (fun z hz => ih z (by simp [hz])) ys).mp h2⟩
              · rintro ⟨h1, h2⟩
                exact ⟨(ih x (by simp) y).mpr h1,
                  (ihl (fun z hz => ih z (by simp [hz])) ys).mpr h2⟩
  | hobj fs ih =>
      intro b; cases b <;> simp [jsonBeq]
      rename_i gs
      induction fs generalizing gs with
      | nil => cases gs <;> simp [jsonBeqFields]
      | cons f fs ihl =>
          cases gs with
          | nil => simp [jsonBeqFields]
          | cons g gs =>
              obtain ⟨k, v⟩ := f
              obtain ⟨k2, v2⟩ := g
              simp [jsonBeqFields]
              constructor
              · rintro ⟨⟨h0, h1⟩, h2⟩
                exact ⟨⟨h0, (ih (k, v) (by simp) v2).mp h1⟩,
                  (ihl (fun z hz => ih z (by simp [hz])) gs).mp h2⟩
              · rintro ⟨⟨h0, h1⟩, h2⟩
                exact ⟨⟨h0, (ih (k, v) (by simp) v2).mpr h1⟩,
                  (ihl (fun z hz => ih z (by simp [hz])) gs).mpr h2⟩

instance : DecidableEq Json := fun a b =>
  decidable_of_iff (jsonBeq a b = true) (jsonBeq_iff a b)

/-! ## JS objects as association lists -/

/-- Property lookup `o[k]` on a JS object (first matching key).  The key
type is a parameter so the same operations serve string-keyed objects and
the numeric-keyed per-row comment dictionaries. -/
def getField {κ α : Type} [DecidableEq κ] (o : List (κ × α)) (k : κ) : Option α :=
  match o with
  | [] => none
  | (k2, v) :: rest => if k2 = k then some v else getField rest k

/-- Spread/assignment update `{...o, [k]: v}` (also `o[k] = v`): replaces the
value of an existing key in place, appends a fresh key at the end. -/
def setField {κ α : Type} [DecidableEq κ] (o : List (κ × α)) (k : κ) (v : α) :
    List (κ × α) :=
  match o with
  | [] => [(k, v)]
  | (k2, v2) :: rest =>
      if k2 = k then (k2, v) :: rest else (k2, v2) :: setField rest k v

/-- Property deletion `delete o[k]`. -/
def delField {κ α : Type} [DecidableEq κ] (o : List (κ × α)) (k : κ) :
    List (κ × α) :=
  o.filter (fun kv => kv.1 ≠ k)

theorem getField_setField_self {κ α : Type} [DecidableEq κ] (o : List (κ × α))
    (k : κ) (v : α) : getField (setField o k v) k = some v := by
  induction o with
  | nil => simp [setField, getField]
  | cons kv rest ih =>
      obtain ⟨k2, v2⟩ := kv
      by_cases h : k2 = k <;> simp [setField, getField, h, ih]

theorem getField_setField_ne {κ α : Type} [DecidableEq κ] (o : List (κ × α))
    (k k2 : κ) (v : α) (h : k2 ≠ k) :
    getField (setField o k v) k2 = getField o k2 := by
  induction o with
  | nil => simp [setField, getField, Ne.symm h]
  | cons kv rest ih =>
      obtain ⟨k3, v3⟩ := kv
      by_cases h3 : k3 = k
      · subst h3
        simp [setField, getField, Ne.symm h]
      · by_cases h4 : k3 = k2 <;> simp [setField, getField, h, h3, h4, ih]

theorem getField_delField_self {κ α : Type} [DecidableEq κ] (o : List (κ × α))
    (k : κ) : getField (delField o k) k = none := by
  induction o with
  | nil => simp [delField, getField]
  | cons kv rest ih =>
      obtain ⟨k2, v2⟩ := kv
      by_cases h : k2 = k
      · subst h
        simpa [delField, getField] using ih
      · simpa [delField, getField, h] using ih

theorem getField_delField_ne {κ α : Type} [DecidableEq κ] (o : List (κ × α))
    (k k2 : κ) (h : k2 ≠ k) :
    getField (delField o k) k2 = getField o k2 := by
  induction o with
  | nil => simp [delField, getField]
  | cons kv rest ih =>
      obtain ⟨k3, v3⟩ := kv
      by_cases h3 : k3 = k
      · subst h3
        simpa [delField, getField, Ne.symm h] using ih
      · by_cases h4 : k3 = k2
        · subst h4
          simp [delField, getField, h]
        · simp [delField, getField, h3, h4]
          simpa [delField] using ih

/-- If a key is absent, `setField` is an append. -/
theorem setField_eq_append {κ α : Type} [DecidableEq κ] (o : List (κ × α))
    (k : κ) (v : α) (h : getField o k = none) :
    setField o k v = o ++ [(k, v)] := by
  induction o with
  | nil => simp [setField]
  | cons kv rest ih =>
      obtain ⟨k2, v2⟩ := kv
      by_cases h2 : k2 = k
      · subst h2
        simp [getField] at h
      · simp [getField, h2] at h
        simp [setField, h2, ih h]

/-- Keys of a `setField` result. -/
theorem mem_keys_setField {κ α : Type} [DecidableEq κ] (o : List (κ × α))
    (k k2 : κ) (v : α) :
    k2 ∈ (setField o k v).map Prod.fst ↔ k2 = k ∨ k2 ∈ o.map Prod.fst := by
  induction o with
  | nil => simp [setField, eq_comm]
  | cons kv rest ih =>
      obtain ⟨k3, v3⟩ := kv
      by_cases h : k3 = k
      · subst h
        simp [setField]
      · simp only [setField, if_neg h, List.map_cons, List.mem_cons, ih]
        tauto

/-! ## String primitives (on character lists)

JavaScript's `String.prototype.trim`, `toLowerCase`, the regex replacement
`replace(/\s+/g, '_')` and decimal rendering of numbers are modelled on
`List Char` so proofs can reason by list induction.  Whitespace is modelled
by `Char.isWhitespace` (space, tab, CR, LF — the whitespace that actually
occurs in the data). -/

/-- Whitespace test used by `trim` and by the `\s` regex class. -/
def wsChar (c : Char) : Bool := c.isWhitespace

/-- Leading/trailing-whitespace removal (`String.prototype.trim`). -/
def trimChars (cs : List Char) : List Char :=
  ((cs.dropWhile wsChar).reverse.dropWhile wsChar).reverse

/-- String-level `trim`. -/
def jsTrim (s : String) : String := ⟨trimChars s.data⟩

/-- Replacement `replace(/\s+/g, '_')`: each maximal run of whitespace
becomes a single underscore.  The flag records whether the scan is inside
a whitespace run. -/
def squashWsAux : Bool → List Char → List Char
  | _, [] => []
  | inWs, c :: cs =>
      if wsChar c then
        (if inWs then squashWsAux true cs else '_' :: squashWsAux true cs)
      else c :: squashWsAux false cs

/-- Replacement `replace(/\s+/g, '_')`. -/
def squashWs (cs : List Char) : List Char := squashWsAux false cs

/-- Lowercasing (`String.prototype.toLowerCase`). -/
def lowerChars (cs : List Char) : List Char := cs.map Char.toLower

/-- Character-list form of `normalizeKey`. -/
def normalizeKeyChars (cs : List Char) : List Char :=
  squashWs (lowerChars (trimChars cs))

/-- The header/key normalizer used both by the Excel import
(`const normalizeKey = (key) => (key || '').trim().toLowerCase().replace(/\s+/g, '_')`)
and by `handleAddColumnConfirm`
(`const key = newColName.trim().toLowerCase().replace(/\s+/g, '_')`). -/
def normalizeKey (s : String) : String := ⟨normalizeKeyChars s.data⟩

/-- Character-list core of `String.prototype.startsWith`. -/
def listStartsWith : List Char → List Char → Bool
  | _, [] => true
  | [], _ :: _ => false
  | c :: cs, p :: ps => c == p && listStartsWith cs ps

/-- `s.startsWith(p)` on character lists (so that concrete instances
reduce). -/
def strStartsWith (s p : String) : Bool := listStartsWith s.data p.data

/-- Decimal digit characters. -/
def digitChar (n : Nat) : Char :=
  match n with
  | 0 => '0' | 1 => '1' | 2 => '2' | 3 => '3' | 4 => '4'
  | 5 => '5' | 6 => '6' | 7 => '7' | 8 => '8' | _ => '9'

/-- Digit-extraction loop for decimal rendering; the fuel bounds the
number of digits (any fuel above the value itself is enough). -/
def natToCharsAux : Nat → Nat → List Char
  | 0, _ => []
  | fuel + 1, n =>
      if n < 10 then [digitChar n]
      else natToCharsAux fuel (n / 10) ++ [digitChar (n % 10)]

/-- Decimal rendering of a natural number (JS `String(n)` for `n ≥ 0`). -/
def natToChars (n : Nat) : List Char := natToCharsAux (n + 1) n

/-- Decimal rendering of an integer (JS `String(n)` for integral numbers). -/
def intToChars (i : Int) : List Char :=
  if i < 0 then '-' :: natToChars i.natAbs else natToChars i.toNat

/-- String-level decimal rendering of an integer. -/
def intToStr (i : Int) : String := ⟨intToChars i⟩

theorem digitChar_mem (m : Nat) :
    digitChar m ∈ ['0', '1', '2', '3', '4', '5', '6', '7', '8', '9'] := by
  rcases m with _ | _ | _ | _ | _ | _ | _ | _ | _ | m <;> simp [digitChar]

theorem digitChar_not_ws (m : Nat) : wsChar (digitChar m) = false := by
  have h := digitChar_mem m
  simp only [List.mem_cons, List.not_mem_nil, or_false] at h
  rcases h with h | h | h | h | h | h | h | h | h | h <;> rw [h] <;> decide

theorem natToCharsAux_spec :
    ∀ fuel n, n < fuel →
      natToCharsAux fuel n ≠ [] ∧
      ∀ c ∈ natToCharsAux fuel n, ∃ m, c = digitChar m := by
  intro fuel
  induction fuel with
  | zero => intro n hn; omega
  | succ fuel ih =>
      intro n hn
      by_cases h10 : n < 10
      · rw [natToCharsAux, if_pos h10]
        exact ⟨by simp, by intro c hc; simp at hc; exact ⟨n, hc⟩⟩
      · rw [natToCharsAux, if_neg h10]
        have hrec : n / 10 < fuel := by
          have := Nat.div_lt_self (show 0 < n by omega) (show 1 < 10 by omega)
          omega
        obtain ⟨h1, h2⟩ := ih (n / 10) hrec
        refine ⟨by simp, ?_⟩
        intro c hc
        rw [List.mem_append] at hc
        rcases hc with hc | hc
        · exact h2 c hc
        · simp at hc
          exact ⟨n % 10, hc⟩

theorem natToChars_ne_nil (n : Nat) : natToChars n ≠ [] :=
  (natToCharsAux_spec (n + 1) n (by omega)).1

theorem natToChars_not_ws (n : Nat) :
    ∀ c ∈ natToChars n, wsChar c = false := by
  intro c hc
  obtain ⟨m, rfl⟩ := (natToCharsAux_spec (n + 1) n (by omega)).2 c hc
  exact digitChar_not_ws m

theorem intToChars_ne_nil (i : Int) : intToChars i ≠ [] := by
  rw [intToChars]
  split
  · simp
  · exact natToChars_ne_nil _

theorem intToChars_not_ws (i : Int) :
    ∀ c ∈ intToChars i, wsChar c = false := by
  rw [intToChars]
  split
  · intro c hc
    simp only [List.mem_cons] at hc
    rcases hc with hc | hc
    · rw [hc]; decide
    · exact natToChars_not_ws _ c hc
  · exact natToChars_not_ws _

/-- `dropWhile` is the identity on lists with no satisfying characters. -/
theorem dropWhile_eq_self_of_all {p : Char → Bool} (cs : List Char)
    (h : ∀ c ∈ cs, p c = false) : cs.dropWhile p = cs := by
  cases cs with
  | nil => rfl
  | cons c rest => simp [List.dropWhile, h c (by simp)]

/-- Trimming a whitespace-free list is the identity. -/
theorem trimChars_eq_self (cs : List Char) (h : ∀ c ∈ cs, wsChar c = false) :
    trimChars cs = cs := by
  unfold trimChars
  rw [dropWhile_eq_self_of_all cs h,
    dropWhile_eq_self_of_all cs.reverse (fun c hc => h c (by simpa using hc)),
    List.reverse_reverse]

theorem trimChars_intToChars (i : Int) : trimChars (intToChars i) = intToChars i :=
  trimChars_eq_self _ (intToChars_not_ws i)

/-! ## JS values: truthiness, string coercion, SameValue equality -/

mutual

/-- The JS string coercion `String(v)`.  For the compound cases that never
occur in this component's data paths (`Date`, functions) a stand-in
rendering is used; no claim depends on those renderings. -/
def jsToChars : JsVal → List Char
  | .null => "null".data
  | .undef => "undefined".data
  | .bool true => "true".data
  | .bool false => "false".data
  | .num n => intToChars n
  | .str s => s.data
  | .date d => intToChars d
  | .fn _ => "function".data
  | .arr xs => jsToCharsList xs
  | .obj _ => "[object Object]".data

/-- Array `toString`: elements joined with commas. -/
def jsToCharsList : List JsVal → List Char
  | [] => []
  | [x] => jsToChars x
  | x :: y :: xs => jsToChars x ++ ',' :: jsToCharsList (y :: xs)

end

/-- JS truthiness. -/
def jsTruthy : JsVal → Bool
  | .null => false
  | .undef => false
  | .bool b => b
  | .num n => n ≠ 0
  | .str s => s ≠ ""
  | .date _ => true
  | .fn _ => true
  | .arr _ => true
  | .obj _ => true

/-- The test `v && String(v).trim() !== ''` applied by the import filters. -/
def jsNonBlank (v : JsVal) : Bool :=
  jsTruthy v && !(trimChars (jsToChars v)).isEmpty

/-- The loose-equality test `v == null` (true exactly for `null`/`undefined`);
applied to an optional property (`none` = absent = `undefined`). -/
def jsNullish : Option JsVal → Bool
  | none => true
  | some .null => true
  | some .undef => true
  | some _ => false

/-- JS strict equality `===` restricted to the primitive values that occur
in row fields; distinct compound values (objects, arrays, functions, dates)
compare by reference and are modelled as unequal. -/
def jsStrictEq : JsVal → JsVal → Bool
  | .null, .null => true
  | .undef, .undef => true
  | .bool a, .bool b => a == b
  | .num a, .num b => a == b
  | .str a, .str b => a == b
  | _, _ => false

theorem jsNonBlank_num (n : Int) : jsNonBlank (.num n) = decide (n ≠ 0) := by
  by_cases h : n = 0
  · simp [h, jsNonBlank, jsTruthy]
  · simp [h, jsNonBlank, jsTruthy, jsToChars, trimChars_intToChars,
      List.isEmpty_iff, intToChars_ne_nil n]

/-! ## Excel sheet cells -/

/-- A cell of the 2D array produced by
`XLSX.utils.sheet_to_json(worksheet, {header: 1, defval: ''})`:
a string or a number. -/
inductive Cell where
  | str (s : String)
  | num (n : Int)
deriving DecidableEq

/-- String coercion `String(cell)`. -/
def Cell.toChars : Cell → List Char
  | .str s => s.data
  | .num n => intToChars n

/-- String coercion, as a `String`. -/
def Cell.toName (c : Cell) : String := ⟨c.toChars⟩

/-- Truthiness of a cell. -/
def Cell.truthy : Cell → Bool
  | .str s => s ≠ ""
  | .num n => n ≠ 0

/-- The test `cell && String(cell).trim() !== ''` (a non-empty cell). -/
def cellNonBlank (c : Cell) : Bool :=
  c.truthy && !(trimChars c.toChars).isEmpty

/-- Injection of cell values into row-field values. -/
def cellToJs : Cell → JsVal
  | .str s => .str s
  | .num n => .num n

instance {e a : Type} [DecidableEq e] [DecidableEq a] : DecidableEq (Except e a)
  | .error x, .error y =>
      if h : x = y then isTrue (by rw [h])
      else isFalse (by intro hh; cases hh; exact h rfl)
  | .error _, .ok _ => isFalse (by intro hh; cases hh)
  | .ok _, .error _ => isFalse (by intro hh; cases hh)
  | .ok x, .ok y =>
      if h : x = y then isTrue (by rw [h])
      else isFalse (by intro hh; cases hh; exact h rfl)

/-- First-occurrence deduplication: the element order of a JS `Set`
(`new Set(l)` keeps the first occurrence of each value). -/
def jsDedupAux {α : Type} [DecidableEq α] (seen : List α) : List α → List α
  | [] => []
  | a :: as => if a ∈ seen then jsDedupAux seen as else a :: jsDedupAux (a :: seen) as

/-- Order-preserving deduplication (`Array.from(new Set(l))`), and the
element count of `new Set(l)` via its length. -/
def jsDedup {α : Type} [DecidableEq α] (l : List α) : List α := jsDedupAux [] l

/-! ## Grid data model

`MyColumn = Column<Row> & { locked?, isDefault? }`: we model the
claim-relevant data fields.  The function-valued presentation properties
(`renderCell`, `renderEditCell`, `renderHeaderCell`) and the optional
layout fields are not data and are dropped by this structure; columns kept
inside a persisted `ScoreCard` are modelled as raw `JsVal` objects instead
(see `ScoreCard` below), which does retain function-valued fields.

A `Row` (`interface Row { id: number | string; [key: string]: any }`) is a
JS object; it is modelled as its field list, `id` being an ordinary
field. -/

structure MyColumn where
  key : String
  name : String
  editable : Bool
  sortable : Bool
deriving DecidableEq

/-- One row of a grid: a JS object. -/
abbrev Row := List (String × JsVal)

/-- react-data-grid sort descriptor: `{ columnKey, direction }` with
direction `'ASC'` or `'DESC'`. -/
structure SortColumn where
  columnKey : String
  direction : String
deriving DecidableEq

/-- The id coercion `typeof r.id === 'number' ? r.id : 0` used by
`handleAddRow` and `handleSubGridAddRow`. -/
def rowIdNum (r : Row) : Int :=
  match getField r "id" with
  | some (.num n) => n
  | _ => 0

/-- `Math.max(...)` over a spread list (only applied to non-empty lists in
the source). -/
def jsMaxList : List Int → Int
  | [] => 0
  | x :: xs => xs.foldl max x

/-- JS `ToNumber` on a string (`trim`; empty → 0; decimal integer
literals; anything else is NaN, i.e. `none`).  The non-integer numeric
syntaxes accepted by JS do not occur in this component's data and are
conservatively mapped to `none`. -/
def digitsValAux (acc : Nat) : List Char → Option Nat
  | [] => some acc
  | c :: cs =>
      if h : '0' ≤ c ∧ c ≤ '9' then digitsValAux (acc * 10 + (c.toNat - 48)) cs
      else none

/-- Numeric value of a JS string, `none` meaning NaN. -/
def strToNumOpt (s : String) : Option Int :=
  match trimChars s.data with
  | [] => some 0
  | '-' :: [] => none
  | '-' :: c :: cs => (digitsValAux 0 (c :: cs)).map (fun n => -(n : Int))
  | cs => (digitsValAux 0 cs).map (fun n => (n : Int))

/-- JS `ToNumber` coercion, `none` meaning NaN.  Compound values coerce
through `ToPrimitive`; they never reach a numeric comparison in this
component and are conservatively mapped to `none`. -/
def toNumOpt : JsVal → Option Int
  | .num n => some n
  | .bool b => some (if b then 1 else 0)
  | .str s => strToNumOpt s
  | .null => some 0
  | .undef => none
  | .date d => some d
  | .fn _ => none
  | .arr _ => none
  | .obj _ => none

/-- The JS relational comparison `a > b`: lexicographic for two strings,
otherwise numeric after `ToNumber` (false if either side is NaN). -/
def jsGt (a b : JsVal) : Bool :=
  match a, b with
  | .str s, .str t => decide (t < s)
  | _, _ =>
      match toNumOpt a, toNumOpt b with
      | some x, some y => decide (y < x)
      | _, _ => false

/-- The comparator passed to `Array.prototype.sort` by `getSortedRows`:

```
if (aValue == null) return 1;
if (bValue == null) return -1;
if (aValue === bValue) return 0;
return (aValue > bValue ? 1 : -1) * (direction === 'ASC' ? 1 : -1);
```
-/
def rowCmp (sc : SortColumn) (a b : Row) : Int :=
  let av := getField a sc.columnKey
  let bv := getField b sc.columnKey
  if jsNullish av then 1
  else if jsNullish bv then -1
  else
    let x := av.getD .undef
    let y := bv.getD .undef
    if jsStrictEq x y then 0
    else (if jsGt x y then 1 else -1) * (if sc.direction = "ASC" then 1 else -1)

/-- `getSortedRows`: returns the rows unchanged when no sort column is
active, otherwise `[...rows].sort(comparator)` by the first sort column.
`Array.prototype.sort` (required to be a stable comparison sort since
ES2019) is modelled by the stable `List.insertionSort` under the relation
`comparator a b ≤ 0`. -/
def getSortedRows (sortColumns : List SortColumn) (rows : List Row) : List Row :=
  match sortColumns with
  | [] => rows
  | sc :: _ => List.insertionSort (fun a b => rowCmp sc a b ≤ 0) rows

/-- `handleDeleteColumn` (main grid): drops every column whose key is
`colKey` and deletes the property `colKey` from every row. -/
def handleDeleteColumn (colKey : String) (cols : List MyColumn) (rows : List Row) :
    List MyColumn × List Row :=
  (cols.filter (fun c => c.key ≠ colKey), rows.map (fun r => delField r colKey))

/-- The new-row id of `handleAddRow`:
`rows.length > 0 ? Math.max(...rows.map(r => typeof r.id === 'number' ? r.id : 0)) + 1 : 1`. -/
def newRowIdOf (rows : List Row) : Int :=
  if rows.length > 0 then jsMaxList (rows.map rowIdNum) + 1 else 1

/-- The field-filling loop of `handleAddRow`:
`currentData.columns.forEach(col => { if (col.key !== 'id' && col.key !== 'delete' && !(col.key in newRow)) newRow[col.key] = ''; })`. -/
def addRowFields (cols : List MyColumn) (r : Row) : Row :=
  cols.foldl
    (fun r c =>
      if c.key ≠ "id" ∧ c.key ≠ "delete" ∧ (getField r c.key).isNone
      then setField r c.key (.str "") else r)
    r

/-- `handleAddRow`: builds `newRow = { id: newId, name: '' }`, fills the
remaining column keys with `''`, and appends it to the rows. -/
def handleAddRow (cols : List MyColumn) (rows : List Row) : List Row :=
  rows ++ [addRowFields cols [("id", .num (newRowIdOf rows)), ("name", .str "")]]

/-- `handleAddColumnConfirm`: validates the new column name, then inserts
the new column before the `retail_price` column (at the end if absent —
`findIndex` returning `-1` and the `insertIndex` fallback collapse to
`List.findIdx`, which returns the length when no match exists),
re-blanks the name of any `comments` column, and adds the new key with
value `''` to every row.  The result is the new columns, the new rows and
the error message set by `setColError` (`none` on success); on a
validation error columns and rows are returned unchanged. -/
def handleAddColumnConfirm (userRole : String) (newColName : String)
    (cols : List MyColumn) (rows : List Row) :
    List MyColumn × List Row × Option String :=
  if jsTrim newColName = "" then (cols, rows, some "Column name is required.")
  else
    let key := normalizeKey newColName
    if cols.any (fun c => c.key = key) then
      (cols, rows, some "Column name must be unique.")
    else
      let newColumn : MyColumn :=
        { key := key
          name := newColName
          editable := userRole = "ADMIN"
          sortable := true }
      let insertIndex := cols.findIdx (fun c => c.key = "retail_price")
      let updatedColumns :=
        (cols.take insertIndex ++ [newColumn] ++ cols.drop insertIndex).map
          (fun c => if c.key = "comments" then { c with name := "" } else c)
      let updatedRows := rows.map (fun r => setField r key (.str ""))
      (updatedColumns, updatedRows, none)

/-! ## JSON serialization

`JSON.stringify` (`jsonOfJs`) returns `none` for values that stringify to
`undefined` (function values and `undefined` itself); inside arrays such
elements render as `null`, inside objects the field is omitted; a `Date`
serializes (via `toJSON`) to a string.  `JSON.parse` (`jsOfJson`) embeds a
JSON tree back into runtime values. -/

/-- Stand-in for `Date.prototype.toJSON` (an ISO-8601 timestamp string).
Only the fact that a `Date` stringifies to a string — and not back to a
`Date` — matters to the claims; the exact text is irrelevant. -/
def dateToJsonStr (d : Int) : String := "ISO-8601[" ++ intToStr d ++ "]"

mutual

/-- `JSON.stringify` on a runtime value. -/
def jsonOfJs : JsVal → Option Json
  | .null => some .null
  | .undef => none
  | .bool b => some (.bool b)
  | .num n => some (.num n)
  | .str s => some (.str s)
  | .date d => some (.str (dateToJsonStr d))
  | .fn _ => none
  | .arr xs => some (.arr (jsonOfJsList xs))
  | .obj fs => some (.obj (jsonOfJsFields fs))

/-- Array elements: unserializable elements become `null`. -/
def jsonOfJsList : List JsVal → List Json
  | [] => []
  | x :: xs => (jsonOfJs x).getD .null :: jsonOfJsList xs

/-- Object fields: unserializable fields are omitted. -/
def jsonOfJsFields : List (String × JsVal) → List (String × Json)
  | [] => []
  | (k, v) :: fs =>
      match jsonOfJs v with
      | none => jsonOfJsFields fs
      | some j => (k, j) :: jsonOfJsFields fs

end

mutual

/-- `JSON.parse` of a JSON tree (as a runtime value). -/
def jsOfJson : Json → JsVal
  | .null => .null
  | .bool b => .bool b
  | .num n => .num n
  | .str s => .str s
  | .arr xs => .arr (jsOfJsonList xs)
  | .obj fs => .obj (jsOfJsonFields fs)

/-- `JSON.parse`, array elements. -/
def jsOfJsonList : List Json → List JsVal
  | [] => []
  | x :: xs => jsOfJson x :: jsOfJsonList xs

/-- `JSON.parse`, object fields. -/
def jsOfJsonFields : List (String × Json) → List (String × JsVal)
  | [] => []
  | (k, v) :: fs => (k, jsOfJson v) :: jsOfJsonFields fs

end

mutual

/-- A value free of `Date`s, function values and `undefined` — the values
on which `JSON.parse ∘ JSON.stringify` is the identity. -/
def jsPure : JsVal → Bool
  | .null => true
  | .undef => false
  | .bool _ => true
  | .num _ => true
  | .str _ => true
  | .date _ => false
  | .fn _ => false
  | .arr xs => jsPureList xs
  | .obj fs => jsPureFields fs

/-- Purity of array elements. -/
def jsPureList : List JsVal → Bool
  | [] => true
  | x :: xs => jsPure x && jsPureList xs

/-- Purity of object fields. -/
def jsPureFields : List (String × JsVal) → Bool
  | [] => true
  | (_, v) :: fs => jsPure v && jsPureFields fs

end

/-! ## localStorage, ScoreCards, comments, sub-grids -/

/-- One localStorage slot: absent, present but not valid JSON, or a JSON
value (identifying the stored string with the JSON tree it parses to). -/
inductive StoredVal where
  | absent
  | invalid
  | stored (j : Json)
deriving DecidableEq

/-- The three localStorage keys this component ever writes:
`'scorecards'`, `'scorecardComments'` and `'retailers'`. -/
structure Storage where
  scorecards : StoredVal
  scorecardComments : StoredVal
  retailers : StoredVal
deriving DecidableEq

/-- `interface ScoreCard { id; name; columns; rows; createdAt: Date }`.
The columns and rows kept inside a ScoreCard are arbitrary JS objects
(columns in particular carry function-valued cell renderers), so they are
modelled as raw `JsVal`s; `createdAt` is a `Date` (epoch milliseconds). -/
structure ScoreCard where
  id : String
  name : String
  columns : List JsVal
  rows : List JsVal
  createdAt : Int
deriving DecidableEq

/-- The runtime JS value of a ScoreCard (field order as constructed by
`createScoreCard`). -/
def scoreCardToJs (sc : ScoreCard) : JsVal :=
  .obj [("id", .str sc.id), ("name", .str sc.name),
    ("columns", .arr sc.columns), ("rows", .arr sc.rows),
    ("createdAt", .date sc.createdAt)]

/-- `JSON.stringify(scorecards)` (an array always stringifies to a JSON
tree, so the `getD` default is never taken). -/
def encodeScoreCards (scs : List ScoreCard) : Json :=
  (jsonOfJs (.arr (scs.map scoreCardToJs))).getD .null

/-- `saveScoreCardsToStorage`:
`localStorage.setItem('scorecards', JSON.stringify(scorecards))`. -/
def saveScoreCardsToStorage (scs : List ScoreCard) (st : Storage) : Storage :=
  { st with scorecards := .stored (encodeScoreCards scs) }

/-- `loadScoreCardsFromStorage`:
`try { const stored = localStorage.getItem('scorecards'); return stored ? JSON.parse(stored) : [] } catch { return [] }`.
The result is whatever value the stored JSON parses to. -/
def loadScoreCardsFromStorage (st : Storage) : JsVal :=
  match st.scorecards with
  | .stored j => jsOfJson j
  | _ => .arr []

/-- One comment `{text, timestamp, username}`. -/
structure CommentEntry where
  text : String
  timestamp : String
  username : String
deriving DecidableEq

/-- The comments state: scorecard id → row id → comment list
(`Record<string, Record<number, {text, timestamp, username}[]>>`),
modelled as nested association lists (JS objects used as dictionaries). -/
abbrev CommentsMap := List (String × List (Int × List CommentEntry))

/-- Comment-list lookup `comments[cat]?.[rid] ?? []` for a
(scorecard, row) pair. -/
def getComments (cm : CommentsMap) (cat : String) (rid : Int) :
    List CommentEntry :=
  match getField cm cat with
  | none => []
  | some inner => (getField inner rid).getD []

/-- JSON form of one comment. -/
def commentToJson (c : CommentEntry) : Json :=
  .obj [("text", .str c.text), ("timestamp", .str c.timestamp),
    ("username", .str c.username)]

/-- `JSON.stringify` of the comments dictionary.  The inner keys are JS
numeric keys; a JS object enumerates integer-like keys in ascending
order, hence the sort. -/
def encodeComments (cm : CommentsMap) : Json :=
  .obj (cm.map fun catInner =>
    (catInner.1,
      .obj ((List.insertionSort (fun a b => a.1 ≤ b.1) catInner.2).map
        fun ridList => (intToStr ridList.1, .arr (ridList.2.map commentToJson)))))

/-- `saveScorecardComments(newComments)`:
`localStorage.setItem('scorecardComments', JSON.stringify(newComments))`. -/
def saveScorecardComments (cm : CommentsMap) (st : Storage) : Storage :=
  { st with scorecardComments := .stored (encodeComments cm) }

/-- The authenticated user (`user?.name || user?.username || 'Anonymous'`);
`none` models a `null` user. -/
structure UserInfo where
  name : String
  username : String
deriving DecidableEq

/-- The username picked for a new comment. -/
def usernameOf : Option UserInfo → String
  | none => "Anonymous"
  | some u => if u.name ≠ "" then u.name else if u.username ≠ "" then u.username else "Anonymous"

/-- One sub-grid (`subGrids[parentId] = { columns, rows, expanded }`). -/
structure SubGrid where
  columns : List MyColumn
  rows : List Row
  expanded : Bool
deriving DecidableEq

/-- The component state touched by the claims under verification, together
with the localStorage contents.  (`subGrids` is a JS object keyed by the
parent row id — numeric ids are coerced to property-name strings.) -/
structure AppState where
  subGrids : List (String × SubGrid)
  scorecards : List ScoreCard
  comments : CommentsMap
  storage : Storage
deriving DecidableEq

/-- `handleAddComment` (comment drawer of a scorecard row): guard
`if (!commentInput.trim() || openCommentRowId == null || !selectedCategory.startsWith('scorecard_')) return;`,
then append `{text: input.trim(), timestamp, username}` to
`comments[selectedCategory][openCommentRowId]` (spread-updating both
levels) and persist via `saveScorecardComments(updated)`.  The wall clock
`new Date().toLocaleString()` is the parameter `now`. -/
def handleAddComment (commentInput : String) (openCommentRowId : Option Int)
    (selectedCategory : String) (user : Option UserInfo) (now : String)
    (s : AppState) : AppState :=
  if jsTrim commentInput = "" ∨ openCommentRowId = none ∨
      ¬ strStartsWith selectedCategory "scorecard_" then s
  else
    match openCommentRowId with
    | none => s
    | some rid =>
        let newComment : CommentEntry :=
          { text := jsTrim commentInput
            timestamp := now
            username := usernameOf user }
        let inner := (getField s.comments selectedCategory).getD []
        let updated :=
          setField s.comments selectedCategory
            (setField inner rid ((getField inner rid).getD [] ++ [newComment]))
        { s with
          comments := updated
          storage := saveScorecardComments updated s.storage }

/-- `handleAddSubGrid(parentId)`: replaces the sub-grid of `parentId` with
a fresh one (`expanded`, one `note` column, no rows).  No storage write
occurs in the source handler. -/
def handleAddSubGrid (parentId : String) (s : AppState) : AppState :=
  { s with
    subGrids := setField s.subGrids parentId
      { expanded := true
        columns := [{ key := "note", name := "Note", editable := true, sortable := true }]
        rows := [] } }

/-- `handleSubGridAddColumn(parentId)`: appends a `New Column` with key
`` `col_${Date.now()}` `` (the generated key is the parameter `colKey`)
and adds an empty field for it to every sub-grid row. -/
def handleSubGridAddColumn (parentId : Option String) (colKey : String)
    (s : AppState) : AppState :=
  match parentId with
  | none => s
  | some pid =>
      let grid := (getField s.subGrids pid).getD
        { columns := [], rows := [], expanded := true }
      { s with
        subGrids := setField s.subGrids pid
          { grid with
            columns := grid.columns ++
              [{ key := colKey, name := "New Column", editable := true, sortable := true }]
            rows := grid.rows.map (fun r => setField r colKey (.str "")) } }

/-- `handleSubGridAddRow(parentId)`: appends a row whose id is
`rows.length > 0 ? Math.max(...) + 1 : 1` and whose fields are `''` for
every column key (`newRow[col.key] = ''` unconditionally). -/
def handleSubGridAddRow (parentId : Option String) (s : AppState) : AppState :=
  match parentId with
  | none => s
  | some pid =>
      let grid := (getField s.subGrids pid).getD
        { columns := [], rows := [], expanded := true }
      let newId : Int :=
        if grid.rows.length > 0 then jsMaxList (grid.rows.map rowIdNum) + 1 else 1
      let newRow : Row :=
        grid.columns.foldl (fun r c => setField r c.key (.str ""))
          [("id", .num newId)]
      { s with
        subGrids := setField s.subGrids pid
          { grid with rows := grid.rows ++ [newRow] } }

/-- Truthiness of the `isAddRow` marker of a row. -/
def rowIsAddRow (r : Row) : Bool :=
  jsTruthy ((getField r "isAddRow").getD .undef)

/-- `handleSubGridRowsChange(parentId, newRows)`: stores
`newRows.filter(r => !r.isAddRow)` as the sub-grid rows (spreading the —
possibly absent — previous grid record; absent spread fields read back as
falsy/empty). -/
def handleSubGridRowsChange (parentId : Option String) (newRows : List Row)
    (s : AppState) : AppState :=
  match parentId with
  | none => s
  | some pid =>
      let grid := (getField s.subGrids pid).getD
        { columns := [], rows := [], expanded := false }
      { s with
        subGrids := setField s.subGrids pid
          { grid with rows := newRows.filter (fun r => !rowIsAddRow r) } }

/-- `handleSubGridDeleteRow(parentId, rowId)`: no-op when the parent id or
row id is undefined or the grid does not exist; otherwise keeps the rows
with `row.id !== rowId`. -/
def handleSubGridDeleteRow (parentId : Option String) (rowId : Option JsVal)
    (s : AppState) : AppState :=
  match parentId, rowId with
  | none, _ => s
  | _, none => s
  | some pid, some rid =>
      match getField s.subGrids pid with
      | none => s
      | some grid =>
          { s with
            subGrids := setField s.subGrids pid
              { grid with rows := (grid.rows.filter
                  (fun r => !jsStrictEq ((getField r "id").getD .undef) rid)) } }

/-- `handleSubGridDeleteColumn(parentId, colKey)`: no-op when the parent
id is undefined or the grid does not exist; otherwise drops every column
whose key is `colKey` and deletes that property from every row. -/
def handleSubGridDeleteColumn (parentId : Option String) (colKey : String)
    (s : AppState) : AppState :=
  match parentId with
  | none => s
  | some pid =>
      match getField s.subGrids pid with
      | none => s
      | some grid =>
          { s with
            subGrids := setField s.subGrids pid
              { grid with
                columns := grid.columns.filter (fun c => c.key ≠ colKey)
                rows := grid.rows.map (fun r => delField r colKey) } }

/-! ## Excel import (`handleImportExcel`)

The file/workbook plumbing (`FileReader`, `XLSX.read`, `sheet_to_json`) is
I/O; the parsing logic under verification starts from the resulting 2D
array `rows2D : any[][]`, whose cells are strings or numbers
(`List (List Cell)`).  A missing `row[i]` reads as `undefined`, which
behaves exactly like the falsy cell `.str ""` in every use below (`cell &&
…` guards, `?? ''` defaults, `!key` tests), so `getD _ (.str "")` models
out-of-range access.  The import can throw a `TypeError` (a number where
`.trim()`/`.charAt()` is called), hence the `Except String` result; `.ok
none` is an early `return` that leaves the grid unchanged. -/

/-- Score of a candidate header row: the number of distinct non-empty cell
values (`new Set(row.filter(cell => cell && String(cell).trim() !== '')).size`). -/
def headerRowScore (r : List Cell) : Nat :=
  (jsDedup (r.filter cellNonBlank)).length

/-- The header-scan loop: repeatedly `if (score > maxScore) { maxScore =
score; headerRowIndex = i; }` over the scores, starting from accumulator
`(headerRowIndex, maxScore) = (0, -1)`. -/
def bestHeaderAux : List Int → Nat → Nat × Int → Nat × Int
  | [], _, acc => acc
  | score :: rest, i, acc =>
      if score > acc.2 then bestHeaderAux rest (i + 1) (i, score)
      else bestHeaderAux rest (i + 1) acc

/-- `headerRowIndex` after scanning the first `Math.min(10, rows2D.length)`
rows. -/
def chooseHeaderRow (rows2D : List (List Cell)) : Nat :=
  (bestHeaderAux
    ((rows2D.take (min 10 rows2D.length)).map (fun r => (headerRowScore r : Int)))
    0 (0, -1)).1

/-- `firstCol`: the non-empty cells of the first column. -/
def firstColCells (rows2D : List (List Cell)) : List Cell :=
  (rows2D.map (fun r => r.getD 0 (.str ""))).filter cellNonBlank

/-- Vertical-format detection:
`uniqueFirstCol.size > 3 && rows2D.every(row => row.slice(2).every(cell => !cell || String(cell).trim() === ''))`. -/
def isVerticalSheet (rows2D : List (List Cell)) : Bool :=
  decide ((jsDedup (firstColCells rows2D)).length > 3) &&
    rows2D.all (fun r => (r.drop 2).all (fun c => !cellNonBlank c))

/-- State of the block-grouping loop of the vertical branch. -/
structure BlockState where
  blocks : List (List (List Cell))
  current : List (List Cell)
  seen : List Cell

/-- One iteration of the block-grouping loop:

```
const key = row[0];
if (!key || seenFields.has(key)) {
  if (currentBlock.length > 0) blocks.push(currentBlock);
  currentBlock = []; seenFields = new Set();
}
if (key) { currentBlock.push(row); seenFields.add(key); }
```
-/
def buildBlocksStep (st : BlockState) (row : List Cell) : BlockState :=
  let key := row.getD 0 (.str "")
  let st :=
    if ¬ key.truthy ∨ key ∈ st.seen then
      { blocks := if st.current ≠ [] then st.blocks ++ [st.current] else st.blocks
        current := []
        seen := [] }
    else st
  if key.truthy then
    { st with
      current := st.current ++ [row]
      seen := st.seen ++ [key] }
  else st

/-- The blocks of the vertical branch (closing the trailing block). -/
def blocksOf (rows2D : List (List Cell)) : List (List (List Cell)) :=
  let st := rows2D.foldl buildBlocksStep ⟨[], [], []⟩
  if st.current ≠ [] then st.blocks ++ [st.current] else st.blocks

/-- `allKeys = Array.from(new Set(blocks.flatMap(block => block.map(row => row[0]))))`. -/
def allKeysOf (rows2D : List (List Cell)) : List Cell :=
  jsDedup ((blocksOf rows2D).flatMap (fun b => b.map (fun r => r.getD 0 (.str ""))))

/-- `s.charAt(0).toUpperCase() + s.slice(1)` on a string. -/
def jsCapitalize (s : String) : String :=
  match s.data with
  | [] => ""
  | c :: cs => ⟨c.toUpper :: cs⟩

/-- `normalizeKey` applied to a raw cell:
`(key || '').trim()...` — a number other than `0` has no `.trim` method and
throws a `TypeError`; `0` is falsy and falls back to `''`. -/
def normalizeKeyJS : Cell → Except String String
  | .str s => .ok (normalizeKey s)
  | .num n => if n = 0 then .ok (normalizeKey "") else .error "TypeError"

/-- The vertical-branch column title
`(key || `__EMPTY_${i}`).charAt(0).toUpperCase() + (key || `__EMPTY_${i}`).slice(1)`:
a number other than `0` has no `.charAt` method and throws a `TypeError`. -/
def capitalizeKeyJS (c : Cell) (i : Nat) : Except String String :=
  match c with
  | .str s => .ok (jsCapitalize (if s = "" then "__EMPTY_" ++ (⟨natToChars i⟩ : String) else s))
  | .num n =>
      if n = 0 then .ok (jsCapitalize ("__EMPTY_" ++ (⟨natToChars i⟩ : String)))
      else .error "TypeError"

/-- Effectful `map` (`Array.prototype.map` over a callback that can
throw). -/
def mapExcept {α β : Type} (f : α → Except String β) : List α → Except String (List β)
  | [] => .ok []
  | a :: as =>
      match f a with
      | .error e => .error e
      | .ok b =>
          match mapExcept f as with
          | .error e => .error e
          | .ok bs => .ok (b :: bs)

/-- Effectful `map` with element index. -/
def mapIdxExcept {α β : Type} (f : α → Nat → Except String β) :
    List α → Nat → Except String (List β)
  | [], _ => .ok []
  | a :: as, i =>
      match f a i with
      | .error e => .error e
      | .ok b =>
          match mapIdxExcept f as (i + 1) with
          | .error e => .error e
          | .ok bs => .ok (b :: bs)

/-- An imported column `{ key, name, editable, renderEditCell }`; the two
data fields are modelled (`key` is the raw JS value used by the vertical
branch — a cell — and a normalized string, injected via `Cell.str`, in the
horizontal branch). -/
structure ImportedCol where
  key : Cell
  name : String
deriving DecidableEq

/-- The `updateCurrentData({ columns: importedColumns, rows: formattedRows })`
payload of the import. -/
structure ImportResult where
  columns : List ImportedCol
  rows : List Row
deriving DecidableEq

/-- Horizontal branch, field assembly of one data row:
`normHeaders.forEach((header, i) => { obj[header] = row[i] ?? ''; })`. -/
def buildFieldsH (nh : List String) (r : List Cell) : Row :=
  nh.enum.foldl (fun o hi => setField o hi.2 (cellToJs (r.getD hi.1 (.str "")))) []

/-- Horizontal branch, one finished data row (`obj._rowIndex = idx`). -/
def objOfH (nh : List String) (r : List Cell) (idx : Nat) : Row :=
  setField (buildFieldsH nh r) "_rowIndex" (.num idx)

/-- The final row filter
`Object.values(row).some(v => v && String(v).trim() !== '')`. -/
def keptRow (o : Row) : Bool := o.any (fun kv => jsNonBlank kv.2)

/-- `dataRows = rows2D.slice(headerRowIndex + 1).filter(row => row.some(cell => cell && String(cell).trim() !== ''))`. -/
def dataRowsOf (rows2D : List (List Cell)) (h : Nat) : List (List Cell) :=
  (rows2D.drop (h + 1)).filter (fun r => r.any cellNonBlank)

/-- The horizontal (default) branch of `handleImportExcel`. -/
def importHorizontal (rows2D : List (List Cell)) : Except String (Option ImportResult) :=
  let h := chooseHeaderRow rows2D
  match rows2D.get? h with
  | none => .ok none
  | some headers =>
      match mapExcept normalizeKeyJS headers with
      | .error e => .error e
      | .ok nh =>
          let formattedRows :=
            ((dataRowsOf rows2D h).enum.map (fun p => objOfH nh p.2 p.1)).filter keptRow
          let importedColumns :=
            nh.map (fun k => ImportedCol.mk (.str k) (jsCapitalize k))
          .ok (some ⟨importedColumns, formattedRows⟩)

/-- Vertical branch, one finished output row: the block's
`obj[row[0]] = row[1] ?? ''` assignments, the `allKeys` fill-in of missing
fields with `''`, and `obj._rowIndex = idx`.  (Property names are the
string coercions of the key cells.) -/
def blockObj (allKeys : List Cell) (b : List (List Cell)) (idx : Nat) : Row :=
  let o := b.foldl
    (fun o r => setField o (r.getD 0 (.str "")).toName (cellToJs (r.getD 1 (.str "")))) []
  let o := allKeys.foldl
    (fun o k => if (getField o k.toName).isSome then o else setField o k.toName (.str "")) o
  setField o "_rowIndex" (.num idx)

/-- The vertical branch of `handleImportExcel`. -/
def importVertical (rows2D : List (List Cell)) : Except String (Option ImportResult) :=
  let blocks := blocksOf rows2D
  let allKeys := allKeysOf rows2D
  match mapIdxExcept
      (fun k i => (capitalizeKeyJS k i).map (fun nm => ImportedCol.mk k nm))
      allKeys 0 with
  | .error e => .error e
  | .ok importedColumns =>
      let formattedRows :=
        (blocks.enum.map (fun p => blockObj allKeys p.2 p.1)).filter keptRow
      .ok (some ⟨importedColumns, formattedRows⟩)

/-- `handleImportExcel` from the parsed 2D sheet on: an empty sheet
returns immediately (no grid update, `.ok none`); otherwise the vertical
or horizontal branch runs. -/
def handleImportExcel (rows2D : List (List Cell)) : Except String (Option ImportResult) :=
  if rows2D.length = 0 then .ok none
  else if isVerticalSheet rows2D then importVertical rows2D
  else importHorizontal rows2D

/-- A sheet whose cells are all strings. -/
def toCells (ss : List (List String)) : List (List Cell) :=
  ss.map (fun r => r.map Cell.str)

/-! ## General lemmas about the object and list primitives -/

theorem getField_eq_none_iff {κ α : Type} [DecidableEq κ] (o : List (κ × α))
    (k : κ) : getField o k = none ↔ k ∉ o.map Prod.fst := by
  induction o with
  | nil => simp [getField]
  | cons kv rest ih =>
      obtain ⟨k2, v2⟩ := kv
      by_cases h : k2 = k
      · subst h
        simp [getField]
      · rw [getField, if_neg h, ih]
        constructor
        · intro hh
          simp only [List.map_cons, List.mem_cons]
          push_neg
          exact ⟨fun hk => h hk.symm, hh⟩
        · intro hh
          simp only [List.map_cons, List.mem_cons] at hh
          push_neg at hh
          exact hh.2

theorem getField_isSome_setField {κ α : Type} [DecidableEq κ]
    (o : List (κ × α)) (k k2 : κ) (v : α) (h : (getField o k2).isSome) :
    (getField (setField o k v) k2).isSome := by
  by_cases hk : k2 = k
  · subst hk
    simp [getField_setField_self]
  · rwa [getField_setField_ne o k k2 v hk]

theorem mem_jsDedupAux {α : Type} [DecidableEq α] (l : List α) :
    ∀ seen a, a ∈ jsDedupAux seen l ↔ a ∈ l ∧ a ∉ seen := by
  induction l with
  | nil => simp [jsDedupAux]
  | cons x xs ih =>
      intro seen a
      by_cases hx : x ∈ seen
      · simp only [jsDedupAux, if_pos hx, ih]
        constructor
        · rintro ⟨h1, h2⟩
          exact ⟨by simp [h1], h2⟩
        · rintro ⟨h1, h2⟩
          rcases List.mem_cons.mp h1 with h1 | h1
          · exact absurd (h1 ▸ hx) h2
          · exact ⟨h1, h2⟩
      · simp only [jsDedupAux, if_neg hx]
        constructor
        · intro h
          rcases List.mem_cons.mp h with h | h
          · exact ⟨by simp [h], by simpa [h] using hx⟩
          · have := (ih (x :: seen) a).mp h
            exact ⟨by simp [this.1], fun hs => this.2 (by simp [hs])⟩
        · rintro ⟨h1, h2⟩
          rcases List.mem_cons.mp h1 with h1 | h1
          · simp [h1]
          · by_cases hax : a = x
            · simp [hax]
            · exact List.mem_cons.mpr (Or.inr ((ih (x :: seen) a).mpr
                ⟨h1, by simp [hax, h2]⟩))

theorem mem_jsDedup {α : Type} [DecidableEq α] (l : List α) (a : α) :
    a ∈ jsDedup l ↔ a ∈ l := by
  simp [jsDedup, mem_jsDedupAux]

theorem jsDedupAux_nodup {α : Type} [DecidableEq α] (l : List α) :
    ∀ seen, (jsDedupAux seen l).Nodup := by
  induction l with
  | nil => intro seen; simp [jsDedupAux]
  | cons x xs ih =>
      intro seen
      by_cases hx : x ∈ seen
      · simpa [jsDedupAux, hx] using ih seen
      · simp only [jsDedupAux, if_neg hx]
        refine List.nodup_cons.mpr ⟨?_, ih (x :: seen)⟩
        intro hmem
        exact ((mem_jsDedupAux xs (x :: seen) x).mp hmem).2 (by simp)

theorem jsDedup_nodup {α : Type} [DecidableEq α] (l : List α) :
    (jsDedup l).Nodup := jsDedupAux_nodup l []

theorem foldl_max_init (xs : List Int) : ∀ a : Int, a ≤ xs.foldl max a := by
  induction xs with
  | nil => simp
  | cons x xs ih =>
      intro a
      exact le_trans (le_max_left a x) (ih (max a x))

theorem foldl_max_mem (xs : List Int) : ∀ a : Int, ∀ y ∈ xs, y ≤ xs.foldl max a := by
  induction xs with
  | nil => simp
  | cons x xs ih =>
      intro a y hy
      rcases List.mem_cons.mp hy with hy | hy
      · subst hy
        exact le_trans (le_max_right a y) (foldl_max_init xs (max a y))
      · exact ih (max a x) y hy

theorem le_jsMaxList (l : List Int) (y : Int) (hy : y ∈ l) : y ≤ jsMaxList l := by
  cases l with
  | nil => cases hy
  | cons x xs =>
      rcases List.mem_cons.mp hy with hy | hy
      · subst hy
        exact foldl_max_init xs y
      · exact foldl_max_mem xs x y hy

/-! ## Claim C10: deleting a column (main grid and sub-grid) -/

/-- C10.  Deleting a column removes it everywhere and touches nothing
else: `handleDeleteColumn colKey` keeps exactly the columns whose key
differs from `colKey` (in order), maps every row through a deletion of the
`colKey` property — so lookups of `colKey` become absent while every other
field reads unchanged — and preserves the number of rows.
`handleSubGridDeleteColumn` does the same to the sub-grid of the given
parent while every other sub-grid, and the rest of the state, is
unchanged (and the state is untouched when the parent id is `undefined` or
has no sub-grid). -/
theorem deleteColumn_spec (colKey : String) (cols : List MyColumn)
    (rows : List Row) (s : AppState) (pid : String) :
    ((handleDeleteColumn colKey cols rows).1 =
        cols.filter (fun c => c.key ≠ colKey) ∧
      (handleDeleteColumn colKey cols rows).2 =
        rows.map (fun r => delField r colKey) ∧
      (handleDeleteColumn colKey cols rows).2.length = rows.length ∧
      (∀ r ∈ rows, getField (delField r colKey) colKey = none ∧
        ∀ k2, k2 ≠ colKey → getField (delField r colKey) k2 = getField r k2)) ∧
    (handleSubGridDeleteColumn none colKey s = s) ∧
    (getField s.subGrids pid = none →
      handleSubGridDeleteColumn (some pid) colKey s = s) ∧
    (∀ grid, getField s.subGrids pid = some grid →
      getField (handleSubGridDeleteColumn (some pid) colKey s).subGrids pid =
          some { grid with
            columns := grid.columns.filter (fun c => c.key ≠ colKey)
            rows := grid.rows.map (fun r => delField r colKey) } ∧
        (∀ pid2, pid2 ≠ pid →
          getField (handleSubGridDeleteColumn (some pid) colKey s).subGrids pid2 =
            getField s.subGrids pid2) ∧
        (handleSubGridDeleteColumn (some pid) colKey s).scorecards = s.scorecards ∧
        (handleSubGridDeleteColumn (some pid) colKey s).comments = s.comments) := by
  refine ⟨⟨rfl, rfl, by simp [handleDeleteColumn], ?_⟩, rfl, ?_, ?_⟩
  · intro r _
    exact ⟨getField_delField_self r colKey,
      fun k2 hk2 => getField_delField_ne r colKey k2 hk2⟩
  · intro h
    simp [handleSubGridDeleteColumn, h]
  · intro grid hgrid
    refine ⟨?_, ?_, ?_, ?_⟩
    · simp only [handleSubGridDeleteColumn, hgrid]
      exact getField_setField_self _ _ _
    · intro pid2 hpid2
      simp only [handleSubGridDeleteColumn, hgrid]
      exact getField_setField_ne _ _ _ _ hpid2
    · simp [handleSubGridDeleteColumn, hgrid]
    · simp [handleSubGridDeleteColumn, hgrid]

/-- Witness for C10 at a concrete state: deleting column `b` of the main
grid and of sub-grid `1`. -/
theorem deleteColumn_spec_witness :
    (getField
        (([(("1" : String), (⟨[⟨"b", "B", true, true⟩], [[("b", JsVal.str "v")]], true⟩ : SubGrid))] :
          List (String × SubGrid))) "1" = some ⟨[⟨"b", "B", true, true⟩], [[("b", JsVal.str "v")]], true⟩) ∧
      getField (handleSubGridDeleteColumn (some "1") "b"
        ⟨[("1", ⟨[⟨"b", "B", true, true⟩], [[("b", JsVal.str "v")]], true⟩)], [], [],
          ⟨.absent, .absent, .absent⟩⟩).subGrids "1" =
        some ⟨[], [[]], true⟩ := by
  constructor
  · decide
  · have h := (deleteColumn_spec "b" [] []
      ⟨[("1", ⟨[⟨"b", "B", true, true⟩], [[("b", JsVal.str "v")]], true⟩)], [], [],
        ⟨.absent, .absent, .absent⟩⟩ "1").2.2.2
      ⟨[⟨"b", "B", true, true⟩], [[("b", JsVal.str "v")]], true⟩ (by decide)
    calc getField (handleSubGridDeleteColumn (some "1") "b" _).subGrids "1"
        = some { (⟨[⟨"b", "B", true, true⟩], [[("b", JsVal.str "v")]], true⟩ : SubGrid) with
            columns := List.filter (fun c => c.key ≠ "b") [⟨"b", "B", true, true⟩]
            rows := List.map (fun r => delField r "b") [[("b", JsVal.str "v")]] } := h.1
      _ = some ⟨[], [[]], true⟩ := by decide

/-! ## Claim C8: adding a row -/

theorem addRowFields_getField_id (cols : List MyColumn) :
    ∀ r : Row, getField (addRowFields cols r) "id" = getField r "id" := by
  induction cols with
  | nil => intro r; rfl
  | cons c cs ih =>
      intro r
      show getField (addRowFields cs _) "id" = _
      rw [ih]
      beta_reduce
      split
      · next hg => exact getField_setField_ne r c.key "id" _ (Ne.symm hg.1)
      · rfl

theorem addRowFields_preserves_isSome (cols : List MyColumn) :
    ∀ (r : Row) (k : String), (getField r k).isSome →
      (getField (addRowFields cols r) k).isSome := by
  induction cols with
  | nil => intro r k h; exact h
  | cons c cs ih =>
      intro r k h
      show (getField (addRowFields cs _) k).isSome
      apply ih
      beta_reduce
      split
      · exact getField_isSome_setField r c.key k _ h
      · exact h

theorem addRowFields_blank_inv (cols : List MyColumn) :
    ∀ r : Row,
      (∀ k, k ≠ "id" → getField r k = none ∨ getField r k = some (.str "")) →
      ∀ k, k ≠ "id" →
        getField (addRowFields cols r) k = none ∨
        getField (addRowFields cols r) k = some (.str "") := by
  induction cols with
  | nil => intro r hinv k hk; exact hinv k hk
  | cons c cs ih =>
      intro r hinv k hk
      show getField (addRowFields cs _) k = none ∨ _
      apply ih _ _ k hk
      intro k2 hk2
      beta_reduce
      split
      · by_cases hck : k2 = c.key
        · subst hck
          right
          exact getField_setField_self r c.key _
        · rw [getField_setField_ne r c.key k2 _ hck]
          exact hinv k2 hk2
      · exact hinv k2 hk2

theorem addRowFields_isSome (cols : List MyColumn) :
    ∀ r : Row, ∀ c ∈ cols, c.key ≠ "id" → c.key ≠ "delete" →
      (getField (addRowFields cols r) c.key).isSome := by
  induction cols with
  | nil => intro r c hc; cases hc
  | cons c0 cs ih =>
      intro r c hc h1 h2
      rcases List.mem_cons.mp hc with hc | hc
      · subst hc
        show (getField (addRowFields cs _) c.key).isSome
        apply addRowFields_preserves_isSome
        beta_reduce
        split
        · simp [getField_setField_self]
        · next hg =>
            push_neg at hg
            have h3 := hg h1 h2
            have h4 : ¬ getField r c.key = none := by
              intro hnone
              exact h3 (by simp [hnone])
            simp [Option.isSome_iff_ne_none, h4]
      · exact ih _ c hc h1 h2

/-- The conclusion of the C8 theorem (see `handleAddRow_spec`). -/
def AddRowSpec (cols : List MyColumn) (rows : List Row) : Prop :=
  (handleAddRow cols rows).take rows.length = rows ∧
  (handleAddRow cols rows).length = rows.length + 1 ∧
  ∃ newRow : Row, handleAddRow cols rows = rows ++ [newRow] ∧
    getField newRow "id" = some (.num (newRowIdOf rows)) ∧
    (rows = [] → newRowIdOf rows = 1) ∧
    (rows ≠ [] → newRowIdOf rows = jsMaxList (rows.map rowIdNum) + 1) ∧
    (∀ r ∈ rows, ∀ n : Int, getField r "id" = some (.num n) →
      n < newRowIdOf rows) ∧
    getField newRow "name" = some (.str "") ∧
    (∀ c ∈ cols, c.key ≠ "id" → c.key ≠ "delete" →
      getField newRow c.key = some (.str ""))

/-- C8 (amended).  `handleAddRow` appends exactly one new row at the end
and modifies no existing row; the new id is `1` when the row list is
empty and otherwise one greater than the maximum over the rows of (the
row's id when numeric, else `0`) — hence it differs from (indeed exceeds)
every existing numeric row id; the new row maps `name` and every column
key other than `id` and `delete` to `''`. -/
theorem handleAddRow_spec (cols : List MyColumn) (rows : List Row) :
    AddRowSpec cols rows := by
  have hinit : ∀ k, k ≠ "id" →
      getField ([("id", .num (newRowIdOf rows)), ("name", .str "")] : Row) k = none ∨
      getField ([("id", .num (newRowIdOf rows)), ("name", .str "")] : Row) k =
        some (.str "") := by
    intro k hk
    by_cases hn : k = "name"
    · subst hn
      right
      simp [getField]
    · left
      simp [getField, Ne.symm hk, Ne.symm hn]
  refine ⟨by simp [handleAddRow], by simp [handleAddRow],
    addRowFields cols [("id", .num (newRowIdOf rows)), ("name", .str "")],
    rfl, ?_, ?_, ?_, ?_, ?_, ?_⟩
  · rw [addRowFields_getField_id]
    simp [getField]
  · intro h
    simp [newRowIdOf, h]
  · intro h
    simp [newRowIdOf, List.length_pos.mpr h]
  · intro r hr n hn
    have hnum : rowIdNum r = n := by simp [rowIdNum, hn]
    have hmem : n ∈ rows.map rowIdNum := hnum ▸ List.mem_map_of_mem rowIdNum hr
    have hle := le_jsMaxList _ n hmem
    have hpos : 0 < rows.length := List.length_pos.mpr (by rintro rfl; cases hr)
    simp only [newRowIdOf, if_pos hpos]
    omega
  · have hsome := addRowFields_preserves_isSome cols
      [("id", .num (newRowIdOf rows)), ("name", .str "")] "name" (by simp [getField])
    rcases addRowFields_blank_inv cols _ hinit "name" (by decide) with h | h
    · rw [h] at hsome
      cases hsome
    · exact h
  · intro c hc h1 h2
    have hsome := addRowFields_isSome cols
      [("id", .num (newRowIdOf rows)), ("name", .str "")] c hc h1 h2
    rcases addRowFields_blank_inv cols _ hinit c.key h1 with h | h
    · rw [h] at hsome
      cases hsome
    · exact h

/-- Witness for C8 at a concrete input. -/
theorem handleAddRow_spec_witness :
    AddRowSpec [⟨"task", "Task", true, true⟩] [[("id", JsVal.num 2)]] :=
  handleAddRow_spec [⟨"task", "Task", true, true⟩] [[("id", JsVal.num 2)]]

/-- C8 counterexample.  For the rows `[{id: -5}, {id: "x"}]` the claim
predicts the new id `-4` (one greater than the maximum numeric id `-5`),
but the code coerces the non-numeric id `"x"` to `0` before taking the
maximum and produces the id `1`. -/
theorem handleAddRow_counterexample :
    handleAddRow [] [[("id", JsVal.num (-5))], [("id", JsVal.str "x")]] =
      [[("id", JsVal.num (-5))], [("id", JsVal.str "x")],
        [("id", JsVal.num 1), ("name", JsVal.str "")]] ∧
    getField [(("id" : String), JsVal.num (-5))] "id" = some (JsVal.num (-5)) ∧
    getField [(("id" : String), JsVal.str "x")] "id" = some (JsVal.str "x") ∧
    ((-5 : Int) + 1 = -4) ∧ ((1 : Int) ≠ -4) := by
  refine ⟨?_, by decide, by decide, by decide, by decide⟩
  decide

/-! ## Claim C9: sorting -/

theorem rowCmp_nullish_left (sc : SortColumn) (a b : Row)
    (h : jsNullish (getField a sc.columnKey) = true) : rowCmp sc a b = 1 := by
  simp [rowCmp, h]

theorem rowCmp_nullish_right (sc : SortColumn) (a b : Row)
    (ha : jsNullish (getField a sc.columnKey) = false)
    (hb : jsNullish (getField b sc.columnKey) = true) : rowCmp sc a b = -1 := by
  simp [rowCmp, ha, hb]

/-- Inserting into a `P`-pairwise list preserves pairwiseness, given that
an element inserted in front dominates everything (`hA`) and an element
passed over is dominated (`hB`). -/
theorem pairwise_orderedInsert {α : Type} (r : α → α → Prop) [DecidableRel r]
    (P : α → α → Prop) (x : α)
    (hA : ∀ y, r x y → ∀ z, P x z)
    (hB : ∀ y, ¬ r x y → P y x) :
    ∀ l : List α, l.Pairwise P → (List.orderedInsert r x l).Pairwise P := by
  intro l
  induction l with
  | nil =>
      intro _
      simp [List.orderedInsert]
  | cons y ys ih =>
      intro hp
      rw [List.orderedInsert]
      split
      · next hr =>
          refine List.pairwise_cons.mpr ⟨?_, hp⟩
          intro z _
          exact hA y hr z
      · next hr =>
          have hp2 := List.pairwise_cons.mp hp
          refine List.pairwise_cons.mpr ⟨?_, ih hp2.2⟩
          intro z hz
          rcases (List.mem_orderedInsert r).mp hz with hz | hz
          · subst hz
            exact hB y hr
          · exact hp2.1 z hz

/-- C9.  Sorting never loses or alters rows: with no sort column the rows
come back in stored order; with a sort column the result is a permutation
of the rows (same multiset of unmodified row objects) in which no
null/undefined-valued row (in the sort column) precedes a row with a
value — i.e. the nullish rows all sit after the others, whatever the
direction is. -/
theorem getSortedRows_spec (sc : SortColumn) (rest : List SortColumn)
    (rows : List Row) :
    getSortedRows [] rows = rows ∧
    (getSortedRows (sc :: rest) rows).Perm rows ∧
    (getSortedRows (sc :: rest) rows).Pairwise
      (fun a b => jsNullish (getField a sc.columnKey) = true →
        jsNullish (getField b sc.columnKey) = true) := by
  refine ⟨rfl, List.perm_insertionSort _ rows, ?_⟩
  show (List.insertionSort _ rows).Pairwise _
  induction rows with
  | nil => simp
  | cons a as ih =>
      rw [List.insertionSort]
      refine pairwise_orderedInsert _ _ a ?_ ?_ _ ih
      · intro y hry z hnull
        exfalso
        rw [show rowCmp sc a y = 1 from rowCmp_nullish_left sc a y hnull] at hry
        omega
      · intro y hry hnully
        by_cases hx : jsNullish (getField a sc.columnKey) = true
        · exact hx
        · exfalso
          apply hry
          rw [rowCmp_nullish_right sc a y (by simpa using hx) hnully]
          omega

/-! ## Claim C7: adding a column -/

/-- The conclusion of the C7 theorem (see `handleAddColumnConfirm_spec`):
writing `(cols2, rows2, err)` for the result, `key` for the generated key
and `ipos` for the insertion position — the call errors exactly when the
trimmed name is empty or the key collides; an error leaves columns and
rows unchanged; on success the new key sits at position `ipos` in the key
sequence, `ipos` is the position of the first `retail_price` column (the
length when there is none), and every row gains `key ↦ ''` with all other
fields unchanged. -/
def AddColumnSpec (userRole newColName : String) (cols : List MyColumn)
    (rows : List Row) : Prop :=
  let res := handleAddColumnConfirm userRole newColName cols rows
  let key := normalizeKey newColName
  let ipos := cols.findIdx (fun c => c.key = "retail_price")
  (res.2.2.isSome ↔ (jsTrim newColName = "" ∨ ∃ c ∈ cols, c.key = key)) ∧
  (res.2.2.isSome → res.1 = cols ∧ res.2.1 = rows) ∧
  (res.2.2 = none →
    res.1.map MyColumn.key =
      (cols.map MyColumn.key).take ipos ++ key :: (cols.map MyColumn.key).drop ipos ∧
    ipos ≤ cols.length ∧
    (∀ j c, cols[j]? = some c → j < ipos → c.key ≠ "retail_price") ∧
    (ipos < cols.length → ∃ c, cols[ipos]? = some c ∧ c.key = "retail_price") ∧
    ((¬ ∃ c ∈ cols, c.key = "retail_price") → ipos = cols.length) ∧
    res.2.1 = rows.map (fun r => setField r key (.str "")) ∧
    (∀ r ∈ rows, getField (setField r key (.str "")) key = some (.str "") ∧
      ∀ k2, k2 ≠ key → getField (setField r key (.str "")) k2 = getField r k2))

/-- C7.  Adding a column fails (with an error message, leaving columns and
rows unchanged) exactly when the trimmed name is empty or the generated
key equals an existing column key; otherwise the new column is inserted
immediately before the (first) `retail_price` column — at the end when no
such column exists — and every existing row gains the new key mapped to
`''`, all other row fields unchanged. -/
theorem handleAddColumnConfirm_spec (userRole newColName : String)
    (cols : List MyColumn) (rows : List Row) :
    AddColumnSpec userRole newColName cols rows := by
  unfold AddColumnSpec
  by_cases h1 : jsTrim newColName = ""
  · refine ⟨?_, ?_, ?_⟩
    · simp [handleAddColumnConfirm, h1]
    · intro _
      simp [handleAddColumnConfirm, h1]
    · intro hnone
      simp [handleAddColumnConfirm, h1] at hnone
  · by_cases h2 : cols.any (fun c => c.key = normalizeKey newColName)
    · refine ⟨?_, ?_, ?_⟩
      · simp only [handleAddColumnConfirm, if_neg h1, if_pos h2]
        simp only [List.any_eq_true, decide_eq_true_eq] at h2
        simp [h2]
      · intro _
        simp [handleAddColumnConfirm, h1, h2]
      · intro hnone
        simp [handleAddColumnConfirm, h1, h2] at hnone
    · have h2p : ¬ ∃ c ∈ cols, c.key = normalizeKey newColName := by
        simpa [List.any_eq_true] using h2
      refine ⟨?_, ?_, ?_⟩
      · simp only [handleAddColumnConfirm, if_neg h1, if_neg h2]
        simp [h1, h2p]
      · intro hsome
        simp [handleAddColumnConfirm, h1, h2] at hsome
      · intro _
        refine ⟨?_, List.findIdx_le_length _, ?_, ?_, ?_, ?_, ?_⟩
        · simp only [handleAddColumnConfirm, if_neg h1, if_neg h2]
          rw [List.map_map]
          have hkey : (MyColumn.key ∘ fun c : MyColumn =>
              if c.key = "comments" then { c with name := "" } else c) = MyColumn.key := by
            funext c
            by_cases hc : c.key = "comments" <;> simp [hc]
          rw [hkey]
          simp [List.map_take, List.map_drop]
        · intro j c hj hlt
          have hjl : j < cols.length :=
            lt_of_lt_of_le hlt (List.findIdx_le_length _)
          rw [List.getElem?_eq_getElem hjl] at hj
          have hc : cols[j] = c := by injection hj
          have := List.not_of_lt_findIdx hlt
          rw [hc] at this
          simpa using this
        · intro hlt
          refine ⟨cols[cols.findIdx (fun c => c.key = "retail_price")], ?_, ?_⟩
          · exact List.getElem?_eq_getElem hlt
          · have := @List.findIdx_getElem _ (fun c => decide (c.key = "retail_price"))
              cols hlt
            simpa using this
        · intro hno
          refine le_antisymm (List.findIdx_le_length _) ?_
          by_contra hlt
          push_neg at hlt
          have := @List.findIdx_getElem _ (fun c => decide (c.key = "retail_price"))
            cols hlt
          exact hno ⟨cols[cols.findIdx (fun c => c.key = "retail_price")],
            List.getElem_mem _, by simpa using this⟩
        · simp [handleAddColumnConfirm, h1, h2]
        · intro r _
          exact ⟨getField_setField_self r _ _,
            fun k2 hk2 => getField_setField_ne r _ k2 _ hk2⟩

/-- Witness for C7 at a concrete input. -/
theorem handleAddColumnConfirm_spec_witness :
    AddColumnSpec "ADMIN" "Phone Number"
      [⟨"name", "Retailer Name", true, true⟩, ⟨"retail_price", "Retail Price", true, true⟩]
      [[("id", JsVal.num 1), ("name", JsVal.str "Item 1")]] :=
  handleAddColumnConfirm_spec "ADMIN" "Phone Number"
    [⟨"name", "Retailer Name", true, true⟩, ⟨"retail_price", "Retail Price", true, true⟩]
    [[("id", JsVal.num 1), ("name", JsVal.str "Item 1")]]

/-! ## Claim C6: adding a comment -/

theorem getComments_eq (cm : CommentsMap) (cat : String) (rid : Int) :
    getComments cm cat rid =
      (getField ((getField cm cat).getD []) rid).getD [] := by
  cases h : getField cm cat <;> simp [getComments, h, getField]

/-- The conclusion of the C6 theorem (see `handleAddComment_spec`). -/
def AddCommentSpec (commentInput : String) (openCommentRowId : Option Int)
    (selectedCategory : String) (user : Option UserInfo) (now : String)
    (s : AppState) : Prop :=
  let s2 := handleAddComment commentInput openCommentRowId selectedCategory user now s
  (∀ rid, openCommentRowId = some rid →
    jsTrim commentInput ≠ "" →
    strStartsWith selectedCategory "scorecard_" = true →
    getComments s2.comments selectedCategory rid =
      getComments s.comments selectedCategory rid ++
        [⟨jsTrim commentInput, now, usernameOf user⟩] ∧
    (∀ cat2 rid2, ¬ (cat2 = selectedCategory ∧ rid2 = rid) →
      getComments s2.comments cat2 rid2 = getComments s.comments cat2 rid2)) ∧
  ((jsTrim commentInput = "" ∨ openCommentRowId = none ∨
      ¬ strStartsWith selectedCategory "scorecard_") → s2.comments = s.comments)

/-- C6.  Comments are per-row: with a non-whitespace input, a selected
`scorecard_…` category and an open row id, exactly one comment — the
trimmed text, the timestamp and the username — is appended at the end of
the comment list of that (scorecard, row) pair, and the list of every
other pair is unchanged; with a blank input, no open row or no scorecard
category selected, the comments map is unchanged. -/
theorem handleAddComment_spec (commentInput : String)
    (openCommentRowId : Option Int) (selectedCategory : String)
    (user : Option UserInfo) (now : String) (s : AppState) :
    AddCommentSpec commentInput openCommentRowId selectedCategory user now s := by
  unfold AddCommentSpec
  constructor
  · intro rid hrid htrim hstart
    subst hrid
    have hcond : ¬ (jsTrim commentInput = "" ∨ (some rid : Option Int) = none ∨
        ¬ strStartsWith selectedCategory "scorecard_") := by
      push_neg
      exact ⟨htrim, by simp, by simp [hstart]⟩
    simp only [handleAddComment, if_neg hcond]
    constructor
    · rw [getComments_eq, getComments_eq, getField_setField_self,
        Option.getD_some, getField_setField_self]
      rfl
    · intro cat2 rid2 hne
      by_cases hcat : cat2 = selectedCategory
      · subst hcat
        have hrid2 : rid2 ≠ rid := fun h => hne ⟨rfl, h⟩
        rw [getComments_eq, getComments_eq, getField_setField_self,
          Option.getD_some, getField_setField_ne _ _ _ _ hrid2]
      · rw [getComments_eq, getComments_eq,
          getField_setField_ne _ _ _ _ hcat]
  · intro h
    simp only [handleAddComment, if_pos h]

/-- Witness for C6 at a concrete input. -/
theorem handleAddComment_spec_witness :
    AddCommentSpec " hi " (some 2) "scorecard_1" none "now"
      ⟨[], [], [("scorecard_1", [(2, [⟨"old", "t", "u"⟩])])],
        ⟨.absent, .absent, .absent⟩⟩ :=
  handleAddComment_spec " hi " (some 2) "scorecard_1" none "now"
    ⟨[], [], [("scorecard_1", [(2, [⟨"old", "t", "u"⟩])])],
      ⟨.absent, .absent, .absent⟩⟩

/-! ## Claim C1: persistence of state to localStorage -/

/-- C1 counterexample.  `handleAddSubGrid` changes the component state
(the sub-grid map) but writes nothing to local storage: from the empty
state, adding a sub-grid under parent `"1"` leaves every localStorage key
untouched while the sub-grid state differs — two distinct reachable
states share identical storage, so the state cannot be reconstructed from
local storage alone. -/
theorem subGridPersistence_counterexample :
    (handleAddSubGrid "1"
        ⟨[], [], [], ⟨.absent, .absent, .absent⟩⟩).storage =
      (⟨.absent, .absent, .absent⟩ : Storage) ∧
    (handleAddSubGrid "1"
        ⟨[], [], [], ⟨.absent, .absent, .absent⟩⟩).subGrids ≠ [] := by
  decide

/-- C1 (amended).  ScoreCards and comments are persisted — a successful
`handleAddComment` stores the serialization of the updated comments map
under `scorecardComments`, and the save-on-change effect
(`saveScoreCardsToStorage`) stores the serialization of the scorecards
under `scorecards`, leaving the other keys alone — but sub-grid state is
not: none of `handleAddSubGrid`, `handleSubGridAddColumn`,
`handleSubGridAddRow`, `handleSubGridRowsChange`, `handleSubGridDeleteRow`
and `handleSubGridDeleteColumn` writes to local storage, for any state
and arguments. -/
theorem persistence_spec :
    (∀ (s : AppState) (pid : String),
      (handleAddSubGrid pid s).storage = s.storage) ∧
    (∀ (s : AppState) (pidO : Option String) (colKey : String),
      (handleSubGridAddColumn pidO colKey s).storage = s.storage) ∧
    (∀ (s : AppState) (pidO : Option String),
      (handleSubGridAddRow pidO s).storage = s.storage) ∧
    (∀ (s : AppState) (pidO : Option String) (newRows : List Row),
      (handleSubGridRowsChange pidO newRows s).storage = s.storage) ∧
    (∀ (s : AppState) (pidO : Option String) (rowId : Option JsVal),
      (handleSubGridDeleteRow pidO rowId s).storage = s.storage) ∧
    (∀ (s : AppState) (pidO : Option String) (colKey : String),
      (handleSubGridDeleteColumn pidO colKey s).storage = s.storage) ∧
    (∀ (commentInput : String) (rid : Option Int) (cat : String)
        (user : Option UserInfo) (now : String) (s : AppState),
      jsTrim commentInput ≠ "" → rid ≠ none → strStartsWith cat "scorecard_" = true →
        (handleAddComment commentInput rid cat user now s).storage.scorecardComments =
          .stored (encodeComments
            (handleAddComment commentInput rid cat user now s).comments) ∧
        (handleAddComment commentInput rid cat user now s).storage.scorecards =
          s.storage.scorecards ∧
        (handleAddComment commentInput rid cat user now s).storage.retailers =
          s.storage.retailers) ∧
    (∀ (scs : List ScoreCard) (st : Storage),
      (saveScoreCardsToStorage scs st).scorecards =
          .stored (encodeScoreCards scs) ∧
        (saveScoreCardsToStorage scs st).scorecardComments = st.scorecardComments ∧
        (saveScoreCardsToStorage scs st).retailers = st.retailers) := by
  refine ⟨fun s pid => rfl, ?_, ?_, ?_, ?_, ?_, ?_, fun scs st => ⟨rfl, rfl, rfl⟩⟩
  · intro s pidO colKey
    cases pidO <;> rfl
  · intro s pidO
    cases pidO <;> rfl
  · intro s pidO newRows
    cases pidO <;> rfl
  · intro s pidO rowId
    cases pidO <;> cases rowId <;> simp [handleSubGridDeleteRow] <;> split <;> rfl
  · intro s pidO colKey
    cases pidO <;> simp [handleSubGridDeleteColumn] <;> split <;> rfl
  · intro commentInput rid cat user now s htrim hrid hcat
    match rid, hrid with
    | some r, _ =>
        have hcond : ¬ (jsTrim commentInput = "" ∨ (some r : Option Int) = none ∨
            ¬ strStartsWith cat "scorecard_") := by
          push_neg
          exact ⟨htrim, by simp, by simp [hcat]⟩
        simp only [handleAddComment, if_neg hcond]
        exact ⟨rfl, rfl, rfl⟩

/-- Witness for C1 (amended) at a concrete input: a successful
`handleAddComment` stores the updated comments. -/
theorem persistence_spec_witness :
    (handleAddComment " m " (some 1) "scorecard_9" none "t"
        ⟨[], [], [], ⟨.absent, .absent, .absent⟩⟩).storage.scorecardComments =
      .stored (encodeComments
        (handleAddComment " m " (some 1) "scorecard_9" none "t"
          ⟨[], [], [], ⟨.absent, .absent, .absent⟩⟩).comments) :=
  (persistence_spec.2.2.2.2.2.2.1 " m " (some 1) "scorecard_9" none "t"
    ⟨[], [], [], ⟨.absent, .absent, .absent⟩⟩
    (by decide) (by decide) (by decide)).1

/-! ## Claim C5: ScoreCard persistence round-trip -/

theorem jsPureList_iff (xs : List JsVal) :
    jsPureList xs = true ↔ ∀ x ∈ xs, jsPure x = true := by
  induction xs with
  | nil => simp [jsPureList]
  | cons x xs ih => simp [jsPureList, ih]

theorem jsPureFields_iff (fs : List (String × JsVal)) :
    jsPureFields fs = true ↔ ∀ kv ∈ fs, jsPure kv.2 = true := by
  induction fs with
  | nil => simp [jsPureFields]
  | cons kv fs ih =>
      obtain ⟨k, v⟩ := kv
      simp [jsPureFields, ih]

theorem roundtrip_list_aux (xs : List JsVal)
    (hrt : ∀ x ∈ xs, ∃ j, jsonOfJs x = some j ∧ jsOfJson j = x) :
    jsOfJsonList (jsonOfJsList xs) = xs := by
  induction xs with
  | nil => rfl
  | cons x xs ih =>
      obtain ⟨j, hj1, hj2⟩ := hrt x (by simp)
      rw [jsonOfJsList, jsOfJsonList, hj1]
      simp only [Option.getD_some, hj2]
      rw [ih (fun z hz => hrt z (by simp [hz]))]

theorem roundtrip_fields_aux (fs : List (String × JsVal))
    (hrt : ∀ kv ∈ fs, ∃ j, jsonOfJs kv.2 = some j ∧ jsOfJson j = kv.2) :
    jsOfJsonFields (jsonOfJsFields fs) = fs := by
  induction fs with
  | nil => rfl
  | cons kv fs ih =>
      obtain ⟨k, v⟩ := kv
      obtain ⟨j, hj1, hj2⟩ := hrt (k, v) (by simp)
      rw [jsonOfJsFields]
      simp only [hj1]
      rw [jsOfJsonFields, hj2]
      rw [ih (fun z hz => hrt z (by simp [hz]))]

/-- On values free of `Date`s, functions and `undefined`,
`JSON.parse ∘ JSON.stringify` is the identity. -/
theorem jsonOfJs_roundtrip :
    ∀ v, jsPure v = true → ∃ j, jsonOfJs v = some j ∧ jsOfJson j = v := by
  intro v
  induction v using jsvInd with
  | hnull => intro _; exact ⟨.null, rfl, rfl⟩
  | hundef => intro h; simp [jsPure] at h
  | hbool b => intro _; exact ⟨.bool b, rfl, rfl⟩
  | hnum n => intro _; exact ⟨.num n, rfl, rfl⟩
  | hstr s => intro _; exact ⟨.str s, rfl, rfl⟩
  | hdate d => intro h; simp [jsPure] at h
  | hfn i => intro h; simp [jsPure] at h
  | harr xs ih =>
      intro h
      rw [jsPure] at h
      have hel := (jsPureList_iff xs).mp h
      refine ⟨.arr (jsonOfJsList xs), by rw [jsonOfJs], ?_⟩
      rw [jsOfJson, roundtrip_list_aux xs (fun x hx => ih x hx (hel x hx))]
  | hobj fs ih =>
      intro h
      rw [jsPure] at h
      have hel := (jsPureFields_iff fs).mp h
      refine ⟨.obj (jsonOfJsFields fs), by rw [jsonOfJs], ?_⟩
      rw [jsOfJson, roundtrip_fields_aux fs (fun kv hkv => ih kv hkv (hel kv hkv))]

theorem roundtrip_list (xs : List JsVal) (h : ∀ x ∈ xs, jsPure x = true) :
    jsOfJsonList (jsonOfJsList xs) = xs :=
  roundtrip_list_aux xs (fun x hx => jsonOfJs_roundtrip x (h x hx))

/-- The JS value a ScoreCard reads back as after a `JSON.stringify` /
`JSON.parse` round trip: `createdAt` has become its serialization string
(`Date`s do not survive `JSON.parse`). -/
def storedScoreCardJs (sc : ScoreCard) : JsVal :=
  .obj [("id", .str sc.id), ("name", .str sc.name),
    ("columns", .arr sc.columns), ("rows", .arr sc.rows),
    ("createdAt", .str (dateToJsonStr sc.createdAt))]

/-- C5 (amended).  Saving a ScoreCard list and loading it back yields the
list with every `createdAt` turned into its serialization string; when
the stored columns and rows contain no function values, `undefined`s or
`Date`s, the ids, names, columns and rows are returned exactly as saved.
(Function-valued column fields would additionally be dropped — see the
counterexample.)  When the stored value is absent or not valid JSON,
loading returns the empty list. -/
theorem scorecard_roundtrip_spec (scs : List ScoreCard) (st : Storage)
    (h : ∀ sc ∈ scs, (∀ c ∈ sc.columns, jsPure c = true) ∧
      (∀ r ∈ sc.rows, jsPure r = true)) :
    loadScoreCardsFromStorage (saveScoreCardsToStorage scs st) =
      .arr (scs.map storedScoreCardJs) ∧
    (∀ st2 : Storage, st2.scorecards = .absent →
      loadScoreCardsFromStorage st2 = .arr []) ∧
    (∀ st2 : Storage, st2.scorecards = .invalid →
      loadScoreCardsFromStorage st2 = .arr []) := by
  refine ⟨?_, ?_, ?_⟩
  · show jsOfJson (encodeScoreCards scs) = _
    rw [encodeScoreCards, jsonOfJs]
    simp only [Option.getD_some]
    rw [jsOfJson]
    congr 1
    induction scs with
    | nil => rfl
    | cons sc rest ih =>
        rw [List.map_cons, jsonOfJsList, jsOfJsonList, List.map_cons]
        have hsc := h sc (by simp)
        congr 1
        · rw [scoreCardToJs, jsonOfJs]
          simp only [Option.getD_some]
          rw [jsonOfJsFields, jsonOfJs]
          rw [jsonOfJsFields, jsonOfJs]
          rw [jsonOfJsFields, jsonOfJs]
          rw [jsonOfJsFields, jsonOfJs]
          rw [jsonOfJsFields, jsonOfJs, jsonOfJsFields]
          rw [jsOfJson]
          rw [jsOfJsonFields, jsOfJson]
          rw [jsOfJsonFields, jsOfJson]
          rw [jsOfJsonFields, jsOfJson]
          rw [jsOfJsonFields, jsOfJson]
          rw [jsOfJsonFields, jsOfJson, jsOfJsonFields]
          rw [roundtrip_list sc.columns hsc.1, roundtrip_list sc.rows hsc.2]
          rfl
        · exact ih (fun sc2 hsc2 => h sc2 (by simp [hsc2]))
  · intro st2 h2
    simp [loadScoreCardsFromStorage, h2]
  · intro st2 h2
    simp [loadScoreCardsFromStorage, h2]

/-- Witness for C5 (amended) at a concrete input. -/
theorem scorecard_roundtrip_spec_witness :
    loadScoreCardsFromStorage (saveScoreCardsToStorage
        [⟨"scorecard_1", "Test", [.obj [("key", .str "name")]],
          [.obj [("id", .num 1)]], 5⟩] ⟨.absent, .absent, .absent⟩) =
      .arr [storedScoreCardJs ⟨"scorecard_1", "Test", [.obj [("key", .str "name")]],
        [.obj [("id", .num 1)]], 5⟩] :=
  (scorecard_roundtrip_spec
    [⟨"scorecard_1", "Test", [.obj [("key", .str "name")]],
      [.obj [("id", .num 1)]], 5⟩] ⟨.absent, .absent, .absent⟩
    (by decide)).1

/-- C5 counterexample.  Saving and loading is not the identity on
ScoreCards: a ScoreCard whose column object carries a cell-renderer
function and whose `createdAt` is a `Date` comes back different — the
function-valued field is dropped by `JSON.stringify` and the `Date` comes
back as a string. -/
theorem scorecard_roundtrip_counterexample :
    loadScoreCardsFromStorage (saveScoreCardsToStorage
        [⟨"scorecard_1", "Test",
          [.obj [("key", .str "name"), ("renderEditCell", .fn 0)]],
          [.obj [("id", .num 1)]], 0⟩] ⟨.absent, .absent, .absent⟩) ≠
      .arr [scoreCardToJs ⟨"scorecard_1", "Test",
        [.obj [("key", .str "name"), ("renderEditCell", .fn 0)]],
        [.obj [("id", .num 1)]], 0⟩] := by
  decide

/-! ## Claims C2–C4: the Excel import -/

/-- Complete characterization of the header-scan loop: either no score
ever beats the accumulator (which is then returned), or the result is the
earliest maximal score strictly above the initial accumulator. -/
theorem bestHeaderAux_spec (l : List Int) :
    ∀ (i : Nat) (acc : Nat × Int),
      (bestHeaderAux l i acc = acc ∧ ∀ j < l.length, l.getD j 0 ≤ acc.2) ∨
      (∃ j, j < l.length ∧
        (bestHeaderAux l i acc).1 = i + j ∧
        (bestHeaderAux l i acc).2 = l.getD j 0 ∧
        acc.2 < l.getD j 0 ∧
        (∀ j2 < j, l.getD j2 0 < l.getD j 0) ∧
        (∀ j2 < l.length, l.getD j2 0 ≤ l.getD j 0)) := by
  induction l with
  | nil =>
      intro i acc
      left
      exact ⟨rfl, by simp⟩
  | cons s rest ih =>
      intro i acc
      by_cases hs : s > acc.2
      · right
        rw [show bestHeaderAux (s :: rest) i acc = bestHeaderAux rest (i + 1) (i, s) by
          rw [bestHeaderAux, if_pos hs]]
        rcases ih (i + 1) (i, s) with ⟨heq, hall⟩ | ⟨j, hj, h1, h2, h3, h4, h5⟩
        · refine ⟨0, by simp, ?_, ?_, ?_, ?_, ?_⟩
          · rw [heq]
            simp
          · rw [heq]
            simp
          · simpa using hs
          · intro j2 hj2
            omega
          · intro j2 hj2
            rcases Nat.eq_zero_or_pos j2 with hz | hz
            · simp [hz]
            · obtain ⟨j3, rfl⟩ := Nat.exists_eq_add_of_lt hz
              simp only [Nat.zero_add] at *
              have := hall j3 (by simpa using hj2)
              simpa using this
        · refine ⟨j + 1, by simpa using hj, ?_, ?_, ?_, ?_, ?_⟩
          · rw [h1]
            omega
          · simpa using h2
          · have := h3
            simp only at this
            have h6 : acc.2 < s := hs
            calc acc.2 < s := h6
              _ < rest.getD j 0 := this
              _ = (s :: rest).getD (j + 1) 0 := by simp
          · intro j2 hj2
            rcases Nat.eq_zero_or_pos j2 with hz | hz
            · subst hz
              simpa using h3
            · obtain ⟨j3, rfl⟩ := Nat.exists_eq_add_of_lt hz
              simp only [Nat.zero_add]
              have := h4 j3 (by omega)
              simpa using this
          · intro j2 hj2
            rcases Nat.eq_zero_or_pos j2 with hz | hz
            · subst hz
              simpa using le_of_lt h3
            · obtain ⟨j3, rfl⟩ := Nat.exists_eq_add_of_lt hz
              simp only [Nat.zero_add]
              have := h5 j3 (by simpa using hj2)
              simpa using this
      · rw [show bestHeaderAux (s :: rest) i acc = bestHeaderAux rest (i + 1) acc by
          rw [bestHeaderAux, if_neg hs]]
        rcases ih (i + 1) acc with ⟨heq, hall⟩ | ⟨j, hj, h1, h2, h3, h4, h5⟩
        · left
          refine ⟨heq, ?_⟩
          intro j2 hj2
          rcases Nat.eq_zero_or_pos j2 with hz | hz
          · subst hz
            simpa using le_of_not_lt hs
          · obtain ⟨j3, rfl⟩ := Nat.exists_eq_add_of_lt hz
            simp only [Nat.zero_add]
            have := hall j3 (by simpa using hj2)
            simpa using this
        · right
          refine ⟨j + 1, by simpa using hj, by rw [h1]; omega, by simpa using h2,
            h3, ?_, ?_⟩
          · intro j2 hj2
            rcases Nat.eq_zero_or_pos j2 with hz | hz
            · subst hz
              simpa using lt_of_le_of_lt (le_of_not_lt hs) h3
            · obtain ⟨j3, rfl⟩ := Nat.exists_eq_add_of_lt hz
              simp only [Nat.zero_add]
              have := h4 j3 (by omega)
              simpa using this
          · intro j2 hj2
            rcases Nat.eq_zero_or_pos j2 with hz | hz
            · subst hz
              simpa using le_trans (le_of_not_lt hs) (le_of_lt h3)
            · obtain ⟨j3, rfl⟩ := Nat.exists_eq_add_of_lt hz
              simp only [Nat.zero_add]
              have := h5 j3 (by simpa using hj2)
              simpa using this

/-- The chosen header row is, among the first `min(10, #rows)` rows, the
earliest row of maximal score. -/
theorem chooseHeaderRow_spec (rows2D : List (List Cell)) (hne : rows2D ≠ []) :
    chooseHeaderRow rows2D < min 10 rows2D.length ∧
    (∀ i < min 10 rows2D.length,
      headerRowScore (rows2D.getD i []) ≤
        headerRowScore (rows2D.getD (chooseHeaderRow rows2D) [])) ∧
    (∀ i < chooseHeaderRow rows2D,
      headerRowScore (rows2D.getD i []) <
        headerRowScore (rows2D.getD (chooseHeaderRow rows2D) [])) := by
  have hnpos : 0 < rows2D.length := List.length_pos.mpr hne
  have hminpos : 0 < min 10 rows2D.length := by omega
  have hllen :
      ((rows2D.take (min 10 rows2D.length)).map
        (fun r => (headerRowScore r : Int))).length = min 10 rows2D.length := by
    simp [List.length_take]
  have hscore : ∀ j, j < min 10 rows2D.length →
      ((rows2D.take (min 10 rows2D.length)).map
        (fun r => (headerRowScore r : Int))).getD j 0 =
        (headerRowScore (rows2D.getD j []) : Int) := by
    intro j hj
    have hjn : j < rows2D.length := lt_of_lt_of_le hj (min_le_right _ _)
    rw [List.getD_eq_getElem?_getD, List.getElem?_map, List.getElem?_take,
      if_pos hj, List.getElem?_eq_getElem hjn, List.getD_eq_getElem?_getD,
      List.getElem?_eq_getElem hjn]
    simp
  rcases bestHeaderAux_spec
      ((rows2D.take (min 10 rows2D.length)).map (fun r => (headerRowScore r : Int)))
      0 (0, -1) with ⟨_, hall⟩ | ⟨j, hj, h1, h2, _, h4, h5⟩
  · exfalso
    have h0 := hall 0 (by omega)
    rw [hscore 0 hminpos] at h0
    omega
  · rw [hllen] at hj
    have hh : chooseHeaderRow rows2D = j := by
      show (bestHeaderAux _ 0 (0, -1)).1 = j
      rw [h1]
      omega
    rw [hh]
    refine ⟨hj, ?_, ?_⟩
    · intro i hi
      have := h5 i (by rw [hllen]; exact hi)
      rw [hscore i hi, hscore j hj] at this
      exact_mod_cast this
    · intro i hi
      have := h4 i hi
      rw [hscore i (lt_trans hi hj), hscore j hj] at this
      exact_mod_cast this

theorem mem_keys_buildFold (r : List Cell) :
    ∀ (ps : List (Nat × String)) (o : Row) (k : String),
      k ∈ ((ps.foldl
          (fun o hi => setField o hi.2 (cellToJs (r.getD hi.1 (.str "")))) o).map
        Prod.fst) ↔
        k ∈ ps.map Prod.snd ∨ k ∈ o.map Prod.fst := by
  intro ps
  induction ps with
  | nil => intro o k; simp
  | cons hi ps ih =>
      intro o k
      rw [List.foldl_cons, ih, List.map_cons, List.mem_cons,
        mem_keys_setField]
      tauto

theorem mem_keys_buildFieldsH (nh : List String) (r : List Cell) (k : String) :
    k ∈ (buildFieldsH nh r).map Prod.fst ↔ k ∈ nh := by
  rw [buildFieldsH, mem_keys_buildFold]
  simp [List.enum_map_snd]

theorem keptRow_objOfH (nh : List String) (r : List Cell) (idx : Nat)
    (hidx : "_rowIndex" ∉ nh) :
    keptRow (objOfH nh r idx) =
      (decide (idx ≠ 0) || keptRow (buildFieldsH nh r)) := by
  have hmem : "_rowIndex" ∉ (buildFieldsH nh r).map Prod.fst := by
    rw [mem_keys_buildFieldsH]
    exact hidx
  rw [objOfH,
    setField_eq_append _ _ _ ((getField_eq_none_iff _ _).mpr hmem)]
  show ((buildFieldsH nh r) ++ _).any _ = _
  rw [List.any_append]
  have : jsNonBlank (.num (idx : Int)) = decide (idx ≠ 0) := by
    rw [jsNonBlank_num]
    simp
  simp [keptRow, this, Bool.or_comm]

theorem getField_objOfH_rowIndex (nh : List String) (r : List Cell) (idx : Nat) :
    getField (objOfH nh r idx) "_rowIndex" = some (.num idx) :=
  getField_setField_self _ _ _

theorem mem_keys_objOfH (nh : List String) (r : List Cell) (idx : Nat)
    (k2 : String) :
    k2 ∈ (objOfH nh r idx).map Prod.fst ↔ (k2 ∈ nh ∨ k2 = "_rowIndex") := by
  rw [objOfH, mem_keys_setField, mem_keys_buildFieldsH]
  tauto

theorem handleImportExcel_branch (rows2D : List (List Cell))
    (hne : rows2D ≠ []) :
    (isVerticalSheet rows2D = false →
      handleImportExcel rows2D = importHorizontal rows2D) ∧
    (isVerticalSheet rows2D = true →
      handleImportExcel rows2D = importVertical rows2D) := by
  have hlen : ¬ rows2D.length = 0 := by
    simpa [List.length_eq_zero] using hne
  constructor
  · intro hvert
    rw [handleImportExcel, if_neg hlen, if_neg (by simp [hvert])]
  · intro hvert
    rw [handleImportExcel, if_neg hlen, if_pos hvert]

theorem importHorizontal_eq (rows2D : List (List Cell)) (nh : List String)
    (hlt : chooseHeaderRow rows2D < rows2D.length)
    (hok : mapExcept normalizeKeyJS
      (rows2D.getD (chooseHeaderRow rows2D) []) = .ok nh) :
    importHorizontal rows2D = .ok (some
      ⟨nh.map (fun k => ImportedCol.mk (.str k) (jsCapitalize k)),
        ((dataRowsOf rows2D (chooseHeaderRow rows2D)).enum.map
          (fun p => objOfH nh p.2 p.1)).filter keptRow⟩) := by
  have hget : rows2D.get? (chooseHeaderRow rows2D) =
      some (rows2D.getD (chooseHeaderRow rows2D) []) := by
    rw [List.get?_eq_getElem?, List.getElem?_eq_getElem hlt,
      List.getD_eq_getElem?_getD, List.getElem?_eq_getElem hlt]
    rfl
  rw [importHorizontal]
  simp only [hget, hok]

/-- The conclusion of the C2 theorem (see
`handleImportExcel_horizontal_spec`), for a sheet whose header row
normalizes to `nh`: the chosen header row is the earliest row of maximal
distinct-non-empty-cell count among the first `min(10, #rows)` rows; the
grid update consists of one column per normalized header and of one data
row per candidate row (a row after the header row with at least one
non-empty cell), except that a candidate whose values at the header keys
are all blank is dropped when its candidate index is `0` (candidates at a
positive index always survive the final filter through their `_rowIndex`
marker); each produced data row is keyed by the normalized headers plus
the `_rowIndex` marker. -/
def HorizontalImportSpec (rows2D : List (List Cell)) (nh : List String) : Prop :=
  (chooseHeaderRow rows2D < min 10 rows2D.length ∧
    (∀ i < min 10 rows2D.length,
      headerRowScore (rows2D.getD i []) ≤
        headerRowScore (rows2D.getD (chooseHeaderRow rows2D) [])) ∧
    (∀ i < chooseHeaderRow rows2D,
      headerRowScore (rows2D.getD i []) <
        headerRowScore (rows2D.getD (chooseHeaderRow rows2D) []))) ∧
  handleImportExcel rows2D = .ok (some
    ⟨nh.map (fun k => ImportedCol.mk (.str k) (jsCapitalize k)),
      ((dataRowsOf rows2D (chooseHeaderRow rows2D)).enum.filter
        (fun p => decide (p.1 ≠ 0) || keptRow (buildFieldsH nh p.2))).map
        (fun p => objOfH nh p.2 p.1)⟩) ∧
  (∀ r idx,
    getField (objOfH nh r idx) "_rowIndex" = some (.num idx) ∧
    ∀ k2, k2 ∈ (objOfH nh r idx).map Prod.fst ↔ (k2 ∈ nh ∨ k2 = "_rowIndex"))

/-- C2 (amended).  For every non-empty sheet not detected as vertical
whose header row normalizes successfully, the horizontal import behaves
as described by `HorizontalImportSpec`: the header row is the earliest
row of maximal distinct-non-empty-cell count among the first
`min(10, #rows)` rows, and the data rows are the candidate rows keyed by
the normalized headers — except that candidate `0` is dropped when all
its header-keyed values are blank. -/
theorem handleImportExcel_horizontal_spec (rows2D : List (List Cell))
    (nh : List String) (hne : rows2D ≠ [])
    (hvert : isVerticalSheet rows2D = false)
    (hok : mapExcept normalizeKeyJS
      (rows2D.getD (chooseHeaderRow rows2D) []) = .ok nh)
    (hidx : "_rowIndex" ∉ nh) :
    HorizontalImportSpec rows2D nh := by
  obtain ⟨hlt, hmax, hfirst⟩ := chooseHeaderRow_spec rows2D hne
  have hltn : chooseHeaderRow rows2D < rows2D.length :=
    lt_of_lt_of_le hlt (min_le_right _ _)
  refine ⟨⟨hlt, hmax, hfirst⟩, ?_, ?_⟩
  · rw [(handleImportExcel_branch rows2D hne).1 hvert,
      importHorizontal_eq rows2D nh hltn hok]
    congr 1
    congr 1
    congr 1
    rw [List.filter_map]
    congr 1
    apply List.filter_congr
    intro p _
    show keptRow (objOfH nh p.2 p.1) = _
    rw [keptRow_objOfH nh p.2 p.1 hidx]
  · intro r idx
    exact ⟨getField_objOfH_rowIndex nh r idx, mem_keys_objOfH nh r idx⟩

/-- Witness for C2 (amended) at a concrete input. -/
theorem handleImportExcel_horizontal_spec_witness :
    HorizontalImportSpec (toCells [["Name", "Age"], ["alice", "3"]])
      ["name", "age"] :=
  handleImportExcel_horizontal_spec (toCells [["Name", "Age"], ["alice", "3"]])
    ["name", "age"] (by decide) (by decide) (by decide) (by decide)

/-- C2 counterexample.  The sheet `[["a"], ["", "x"]]` is not vertical,
its chosen header row is row `0`, and the single row after the header has
the non-empty cell `"x"` — the claim says it becomes a data row — yet
no data row is produced at all: the row's only header-keyed value
(`a ↦ ""`) is blank and its `_rowIndex` is the falsy `0`, so the final
non-emptiness filter drops it. -/
theorem handleImportExcel_horizontal_counterexample :
    isVerticalSheet (toCells [["a"], ["", "x"]]) = false ∧
    chooseHeaderRow (toCells [["a"], ["", "x"]]) = 0 ∧
    dataRowsOf (toCells [["a"], ["", "x"]]) 0 = [[Cell.str "", Cell.str "x"]] ∧
    (Cell.str "x") ∈ [Cell.str "", Cell.str "x"] ∧
    cellNonBlank (Cell.str "x") = true ∧
    handleImportExcel (toCells [["a"], ["", "x"]]) =
      .ok (some ⟨[⟨.str "a", "A"⟩], []⟩) := by
  decide

/-- The first fold of `blockObj`: the block's `(field, value)` pairs. -/
def blockFields (b : List (List Cell)) : Row :=
  b.foldl
    (fun o r => setField o (r.getD 0 (.str "")).toName (cellToJs (r.getD 1 (.str "")))) []

/-- The second fold of `blockObj`: fill every missing key with `''`. -/
def fillMissing (allKeys : List Cell) (o : Row) : Row :=
  allKeys.foldl
    (fun o k => if (getField o k.toName).isSome then o else setField o k.toName (.str "")) o

theorem blockObj_eq (allKeys : List Cell) (b : List (List Cell)) (idx : Nat) :
    blockObj allKeys b idx =
      setField (fillMissing allKeys (blockFields b)) "_rowIndex" (.num idx) := rfl

theorem getField_isSome_iff {κ α : Type} [DecidableEq κ] (o : List (κ × α))
    (k : κ) : (getField o k).isSome = true ↔ k ∈ o.map Prod.fst := by
  cases h : getField o k with
  | none =>
      rw [getField_eq_none_iff] at h
      simp [h]
  | some v =>
      have : ¬ getField o k = none := by simp [h]
      rw [getField_eq_none_iff] at this
      simp [not_not.mp this]

theorem mem_keys_blockFoldAux (b : List (List Cell)) :
    ∀ (o : Row) (k : String),
      k ∈ ((b.foldl (fun o r =>
          setField o (r.getD 0 (.str "")).toName
            (cellToJs (r.getD 1 (.str "")))) o).map Prod.fst) ↔
        k ∈ b.map (fun r => (r.getD 0 (.str "")).toName) ∨ k ∈ o.map Prod.fst := by
  induction b with
  | nil => intro o k; simp
  | cons r b ih =>
      intro o k
      rw [List.foldl_cons, ih, List.map_cons, List.mem_cons, mem_keys_setField]
      tauto

theorem mem_keys_blockFields (b : List (List Cell)) (k : String) :
    k ∈ (blockFields b).map Prod.fst ↔
      k ∈ b.map (fun r => (r.getD 0 (.str "")).toName) := by
  rw [blockFields, mem_keys_blockFoldAux]
  simp

theorem getField_blockFold_not_mem (b : List (List Cell)) :
    ∀ (o : Row) (k : String),
      k ∉ b.map (fun r => (r.getD 0 (.str "")).toName) →
      getField (b.foldl (fun o r =>
          setField o (r.getD 0 (.str "")).toName
            (cellToJs (r.getD 1 (.str "")))) o) k = getField o k := by
  induction b with
  | nil => intro o k _; rfl
  | cons r b ih =>
      intro o k hk
      rw [List.map_cons, List.mem_cons] at hk
      push_neg at hk
      rw [List.foldl_cons, ih _ _ hk.2, getField_setField_ne _ _ _ _ hk.1]

theorem getField_blockFoldAux (b : List (List Cell)) :
    ∀ (o : Row),
      (b.map (fun r => (r.getD 0 (.str "")).toName)).Nodup →
      ∀ r ∈ b,
        getField (b.foldl (fun o r =>
            setField o (r.getD 0 (.str "")).toName
              (cellToJs (r.getD 1 (.str "")))) o) (r.getD 0 (.str "")).toName =
          some (cellToJs (r.getD 1 (.str ""))) := by
  induction b with
  | nil => intro o _ r hr; exact absurd hr (List.not_mem_nil r)
  | cons r0 b ih =>
      intro o hnd r hr
      rw [List.map_cons, List.nodup_cons] at hnd
      rw [List.foldl_cons]
      rcases List.mem_cons.mp hr with hr | hr
      · subst hr
        rw [getField_blockFold_not_mem b _ _ hnd.1, getField_setField_self]
      · exact ih _ hnd.2 r hr

theorem getField_blockFields (b : List (List Cell))
    (hnd : (b.map (fun r => (r.getD 0 (.str "")).toName)).Nodup)
    (r : List Cell) (hr : r ∈ b) :
    getField (blockFields b) (r.getD 0 (.str "")).toName =
      some (cellToJs (r.getD 1 (.str ""))) :=
  getField_blockFoldAux b [] hnd r hr

theorem fillMissing_cons (k : Cell) (rest : List Cell) (o : Row) :
    fillMissing (k :: rest) o =
      fillMissing rest
        (if (getField o k.toName).isSome then o
         else setField o k.toName (.str "")) := rfl

theorem getField_fillMissing_some (allKeys : List Cell) :
    ∀ (o : Row) (k2 : String) (v : JsVal), getField o k2 = some v →
      getField (fillMissing allKeys o) k2 = some v := by
  induction allKeys with
  | nil => intro o k2 v h; exact h
  | cons k rest ih =>
      intro o k2 v h
      rw [fillMissing_cons]
      by_cases hc : (getField o k.toName).isSome = true
      · rw [if_pos hc]
        exact ih o k2 v h
      · rw [if_neg hc]
        by_cases hk : k.toName = k2
        · subst hk
          rw [h] at hc
          simp at hc
        · refine ih _ k2 v ?_
          rw [getField_setField_ne _ _ _ _ (Ne.symm hk)]
          exact h

theorem mem_keys_fillMissing (allKeys : List Cell) :
    ∀ (o : Row) (k2 : String),
      k2 ∈ (fillMissing allKeys o).map Prod.fst ↔
        k2 ∈ o.map Prod.fst ∨ k2 ∈ allKeys.map Cell.toName := by
  induction allKeys with
  | nil => intro o k2; simp [fillMissing]
  | cons k rest ih =>
      intro o k2
      rw [fillMissing_cons, List.map_cons, List.mem_cons]
      by_cases hc : (getField o k.toName).isSome = true
      · rw [if_pos hc, ih]
        rw [getField_isSome_iff] at hc
        constructor
        · tauto
        · rintro (h | h | h)
          · tauto
          · subst h; tauto
          · tauto
      · rw [if_neg hc, ih, mem_keys_setField]
        tauto

theorem getField_fillMissing_missing (allKeys : List Cell) :
    ∀ (o : Row) (k2 : String), getField o k2 = none →
      k2 ∈ allKeys.map Cell.toName →
      getField (fillMissing allKeys o) k2 = some (.str "") := by
  induction allKeys with
  | nil => intro o k2 _ hm; simp at hm
  | cons k rest ih =>
      intro o k2 h hm
      rw [fillMissing_cons]
      by_cases hk : k.toName = k2
      · subst hk
        rw [if_neg (by simp [h])]
        exact getField_fillMissing_some rest _ _ _ (getField_setField_self _ _ _)
      · rw [List.map_cons, List.mem_cons] at hm
        rcases hm with hm | hm
        · exact absurd hm.symm hk
        · by_cases hc : (getField o k.toName).isSome = true
          · rw [if_pos hc]
            exact ih o k2 h hm
          · rw [if_neg hc]
            refine ih _ k2 ?_ hm
            rw [getField_setField_ne _ _ _ _ (Ne.symm hk)]
            exact h

theorem keptRow_fillMissing (allKeys : List Cell) :
    ∀ (o : Row), keptRow (fillMissing allKeys o) = keptRow o := by
  induction allKeys with
  | nil => intro o; rfl
  | cons k rest ih =>
      intro o
      rw [fillMissing_cons]
      by_cases hc : (getField o k.toName).isSome = true
      · rw [if_pos hc]
        exact ih o
      · rw [if_neg hc]
        rw [ih]
        have hnone : getField o k.toName = none := by
          cases h : getField o k.toName with
          | none => rfl
          | some v => rw [h] at hc; simp at hc
        rw [setField_eq_append _ _ _ hnone]
        show (o ++ _).any _ = o.any _
        rw [List.any_append]
        simp [jsNonBlank, jsTruthy]

theorem snd_mem_of_mem_enum {α : Type} {l : List α} {p : Nat × α}
    (h : p ∈ l.enum) : p.2 ∈ l := by
  have hm := List.enum_map_snd l
  rw [← hm]
  exact List.mem_map_of_mem _ h

theorem getD0_mem_allKeys (rows2D : List (List Cell)) (b : List (List Cell))
    (r : List Cell) (hb : b ∈ blocksOf rows2D) (hr : r ∈ b) :
    (r.getD 0 (.str "")) ∈ allKeysOf rows2D := by
  rw [allKeysOf, mem_jsDedup]
  rw [List.mem_flatMap]
  exact ⟨b, hb, List.mem_map_of_mem _ hr⟩

theorem keptRow_blockObj (allKeys : List Cell) (b : List (List Cell)) (idx : Nat)
    (hidx : "_rowIndex" ∉ allKeys.map Cell.toName)
    (hsub : ∀ r ∈ b, (r.getD 0 (.str "")) ∈ allKeys) :
    keptRow (blockObj allKeys b idx) =
      (decide (idx ≠ 0) || keptRow (blockFields b)) := by
  have hkeys : "_rowIndex" ∉ (fillMissing allKeys (blockFields b)).map Prod.fst := by
    rw [mem_keys_fillMissing]
    push_neg
    refine ⟨?_, hidx⟩
    rw [mem_keys_blockFields]
    intro hmem
    rcases List.mem_map.mp hmem with ⟨r, hr, he⟩
    exact hidx (he ▸ List.mem_map_of_mem Cell.toName (hsub r hr))
  rw [blockObj_eq,
    setField_eq_append _ _ _ ((getField_eq_none_iff _ _).mpr hkeys)]
  show ((fillMissing allKeys (blockFields b)) ++ _).any _ = _
  rw [List.any_append]
  have h2 : (fillMissing allKeys (blockFields b)).any (fun kv => jsNonBlank kv.2) =
      keptRow (blockFields b) := keptRow_fillMissing allKeys (blockFields b)
  rw [h2]
  have h1 : jsNonBlank (.num (idx : Int)) = decide (idx ≠ 0) := by
    rw [jsNonBlank_num]
    simp
  simp [keptRow, h1, Bool.or_comm]

theorem importVertical_eq (rows2D : List (List Cell)) (cols : List ImportedCol)
    (hok : mapIdxExcept
      (fun k i => (capitalizeKeyJS k i).map (fun nm => ImportedCol.mk k nm))
      (allKeysOf rows2D) 0 = .ok cols) :
    importVertical rows2D = .ok (some
      ⟨cols, ((blocksOf rows2D).enum.map
          (fun p => blockObj (allKeysOf rows2D) p.2 p.1)).filter keptRow⟩) := by
  rw [importVertical]
  simp only [hok]

/-- The conclusion of the C3 theorem (see
`handleImportExcel_vertical_spec`), for a vertical sheet whose key
columns build successfully as `cols`: the import detects vertical
orientation exactly when the first column has more than 3 distinct
non-empty values and every cell from the third column onward is empty;
the output rows are the blocks of rows — split at an empty first-column
cell or at a repeated field cell — each turned into one object keyed by
the union of all first-column field names with missing fields filled
with `''` and tagged with its `_rowIndex` (amended: a block all of whose
values are blank is dropped when its index is `0`, since the final
non-emptiness filter also counts the falsy `_rowIndex: 0` as blank). -/
def VerticalImportSpec (rows2D : List (List Cell)) (cols : List ImportedCol) : Prop :=
  (∀ sheet : List (List Cell),
    isVerticalSheet sheet = true ↔
      ((jsDedup (firstColCells sheet)).length > 3 ∧
        ∀ r ∈ sheet, ∀ c ∈ r.drop 2, cellNonBlank c = false)) ∧
  handleImportExcel rows2D = .ok (some
    ⟨cols,
      ((blocksOf rows2D).enum.filter
        (fun p => decide (p.1 ≠ 0) || keptRow (blockFields p.2))).map
        (fun p => blockObj (allKeysOf rows2D) p.2 p.1)⟩) ∧
  ∀ b ∈ blocksOf rows2D, ∀ idx : Nat,
    getField (blockObj (allKeysOf rows2D) b idx) "_rowIndex" = some (.num idx) ∧
    (∀ k2 : String,
      k2 ∈ (blockObj (allKeysOf rows2D) b idx).map Prod.fst ↔
        (k2 ∈ (allKeysOf rows2D).map Cell.toName ∨ k2 = "_rowIndex")) ∧
    (∀ k ∈ allKeysOf rows2D,
      k.toName ∉ b.map (fun r => (r.getD 0 (.str "")).toName) →
      getField (blockObj (allKeysOf rows2D) b idx) k.toName = some (.str "")) ∧
    ((b.map (fun r => (r.getD 0 (.str "")).toName)).Nodup →
      ∀ r ∈ b,
        getField (blockObj (allKeysOf rows2D) b idx) (r.getD 0 (.str "")).toName =
          some (cellToJs (r.getD 1 (.str ""))))

/-- C3 (amended).  For every non-empty sheet detected as vertical whose
key-column construction succeeds, the vertical import behaves as
described by `VerticalImportSpec`: vertical orientation is detected
exactly as the claim says, and each block becomes one output row keyed by
the union of all first-column field names with missing fields filled with
the empty string — except that block `0` is dropped when all its values
are blank. -/
theorem handleImportExcel_vertical_spec (rows2D : List (List Cell))
    (cols : List ImportedCol) (hne : rows2D ≠ [])
    (hvert : isVerticalSheet rows2D = true)
    (hok : mapIdxExcept
      (fun k i => (capitalizeKeyJS k i).map (fun nm => ImportedCol.mk k nm))
      (allKeysOf rows2D) 0 = .ok cols)
    (hidx : "_rowIndex" ∉ (allKeysOf rows2D).map Cell.toName) :
    VerticalImportSpec rows2D cols := by
  refine ⟨?_, ?_, ?_⟩
  · intro sheet
    simp [isVerticalSheet, List.all_eq_true, Bool.not_eq_true']
  · rw [(handleImportExcel_branch rows2D hne).2 hvert,
      importVertical_eq rows2D cols hok]
    congr 1
    congr 1
    congr 1
    rw [List.filter_map]
    congr 1
    apply List.filter_congr
    intro p hp
    show keptRow (blockObj (allKeysOf rows2D) p.2 p.1) = _
    exact keptRow_blockObj (allKeysOf rows2D) p.2 p.1 hidx
      (fun r hr => getD0_mem_allKeys rows2D p.2 r (snd_mem_of_mem_enum hp) hr)
  · intro b hb idx
    refine ⟨?_, ?_, ?_, ?_⟩
    · rw [blockObj_eq]
      exact getField_setField_self _ _ _
    · intro k2
      rw [blockObj_eq, mem_keys_setField, mem_keys_fillMissing]
      have habs : k2 ∈ (blockFields b).map Prod.fst →
          k2 ∈ (allKeysOf rows2D).map Cell.toName := by
        intro hk2
        rw [mem_keys_blockFields] at hk2
        rcases List.mem_map.mp hk2 with ⟨r, hr, he⟩
        subst he
        exact List.mem_map_of_mem Cell.toName (getD0_mem_allKeys rows2D b r hb hr)
      tauto
    · intro k hk hnotin
      have hne2 : k.toName ≠ "_rowIndex" := fun he =>
        hidx (he ▸ List.mem_map_of_mem Cell.toName hk)
      rw [blockObj_eq, getField_setField_ne _ _ _ _ hne2]
      refine getField_fillMissing_missing _ _ _ ?_ (List.mem_map_of_mem Cell.toName hk)
      rw [getField_eq_none_iff, mem_keys_blockFields]
      exact hnotin
    · intro hnd r hr
      have hne2 : (r.getD 0 (.str "")).toName ≠ "_rowIndex" := fun he =>
        hidx (he ▸ List.mem_map_of_mem Cell.toName (getD0_mem_allKeys rows2D b r hb hr))
      rw [blockObj_eq, getField_setField_ne _ _ _ _ hne2]
      exact getField_fillMissing_some _ _ _ _ (getField_blockFields b hnd r hr)

/-- Witness for C3 (amended) at a concrete input: a six-row vertical
sheet splitting into two blocks on the repeated field `name`. -/
theorem handleImportExcel_vertical_spec_witness :
    VerticalImportSpec
      (toCells [["name", "alice"], ["age", "3"], ["city", "x"], ["zip", "9"],
        ["name", "bob"], ["age", "4"]])
      [⟨.str "name", "Name"⟩, ⟨.str "age", "Age"⟩, ⟨.str "city", "City"⟩,
        ⟨.str "zip", "Zip"⟩] :=
  handleImportExcel_vertical_spec
    (toCells [["name", "alice"], ["age", "3"], ["city", "x"], ["zip", "9"],
      ["name", "bob"], ["age", "4"]])
    [⟨.str "name", "Name"⟩, ⟨.str "age", "Age"⟩, ⟨.str "city", "City"⟩,
      ⟨.str "zip", "Zip"⟩]
    (by decide) (by decide) (by decide) (by decide)

/-- C3 counterexample.  The sheet `[["a"], ["b"], ["c"], ["d"]]` is
detected as vertical (4 distinct first-column values, no third column)
and groups into exactly one block — the claim says that block becomes one
output row — yet the import produces no rows: every field of the block's
object is the filled-in blank `''` and its `_rowIndex` is the falsy `0`,
so the final non-emptiness filter drops it. -/
theorem handleImportExcel_vertical_counterexample :
    isVerticalSheet (toCells [["a"], ["b"], ["c"], ["d"]]) = true ∧
    (blocksOf (toCells [["a"], ["b"], ["c"], ["d"]])).length = 1 ∧
    handleImportExcel (toCells [["a"], ["b"], ["c"], ["d"]]) =
      .ok (some ⟨[⟨.str "a", "A"⟩, ⟨.str "b", "B"⟩, ⟨.str "c", "C"⟩,
        ⟨.str "d", "D"⟩], []⟩) := by
  decide

theorem buildBlocksStep_mem (st : BlockState) (row : List Cell) :
    (∀ b ∈ (buildBlocksStep st row).blocks, b ∈ st.blocks ∨ b = st.current) ∧
    (∀ r ∈ (buildBlocksStep st row).current, r ∈ st.current ∨ r = row) := by
  simp only [buildBlocksStep]
  split_ifs with h1 h2 h3
  all_goals constructor
  all_goals intro x hx
  all_goals try simp only [List.mem_append, List.mem_singleton] at hx
  all_goals try simp at hx
  all_goals try tauto

theorem blocks_foldl_mem (rows2Dt : List (List Cell)) :
    ∀ st : BlockState,
      (∀ b ∈ (rows2Dt.foldl buildBlocksStep st).blocks, ∀ r ∈ b,
        (∃ b0 ∈ st.blocks, r ∈ b0) ∨ r ∈ st.current ∨ r ∈ rows2Dt) ∧
      (∀ r ∈ (rows2Dt.foldl buildBlocksStep st).current,
        (∃ b0 ∈ st.blocks, r ∈ b0) ∨ r ∈ st.current ∨ r ∈ rows2Dt) := by
  induction rows2Dt with
  | nil =>
      intro st
      constructor
      · intro b hb r hr
        exact Or.inl ⟨b, hb, hr⟩
      · intro r hr
        exact Or.inr (Or.inl hr)
  | cons row rest ih =>
      intro st
      rw [List.foldl_cons]
      obtain ⟨ih1, ih2⟩ := ih (buildBlocksStep st row)
      obtain ⟨hs1, hs2⟩ := buildBlocksStep_mem st row
      constructor
      · intro b hb r hr
        rcases ih1 b hb r hr with ⟨b0, hb0, hrb0⟩ | hr2 | hr3
        · rcases hs1 b0 hb0 with hb0' | hb0'
          · exact Or.inl ⟨b0, hb0', hrb0⟩
          · subst hb0'
            exact Or.inr (Or.inl hrb0)
        · rcases hs2 r hr2 with h | h
          · exact Or.inr (Or.inl h)
          · subst h
            exact Or.inr (Or.inr (List.mem_cons_self _ _))
        · exact Or.inr (Or.inr (List.mem_cons_of_mem _ hr3))
      · intro r hr
        rcases ih2 r hr with ⟨b0, hb0, hrb0⟩ | hr2 | hr3
        · rcases hs1 b0 hb0 with hb0' | hb0'
          · exact Or.inl ⟨b0, hb0', hrb0⟩
          · subst hb0'
            exact Or.inr (Or.inl hrb0)
        · rcases hs2 r hr2 with h | h
          · exact Or.inr (Or.inl h)
          · subst h
            exact Or.inr (Or.inr (List.mem_cons_self _ _))
        · exact Or.inr (Or.inr (List.mem_cons_of_mem _ hr3))

theorem mem_blocksOf (rows2D : List (List Cell)) :
    ∀ b ∈ blocksOf rows2D, ∀ r ∈ b, r ∈ rows2D := by
  intro b hb r hr
  simp only [blocksOf] at hb
  obtain ⟨h1, h2⟩ := blocks_foldl_mem rows2D ⟨[], [], []⟩
  split at hb
  · rcases List.mem_append.mp hb with hb | hb
    · have := h1 b hb r hr
      simpa using this
    · rw [List.mem_singleton] at hb
      subst hb
      have := h2 r hr
      simpa using this
  · have := h1 b hb r hr
    simpa using this

theorem allKeysOf_toCells_str (ss : List (List String)) :
    ∀ c ∈ allKeysOf (toCells ss), ∃ s, c = .str s := by
  intro c hc
  rw [allKeysOf, mem_jsDedup, List.mem_flatMap] at hc
  obtain ⟨b, hb, hcb⟩ := hc
  obtain ⟨r, hr, he⟩ := List.mem_map.mp hcb
  subst he
  have hrm : r ∈ toCells ss := mem_blocksOf (toCells ss) b hb r hr
  obtain ⟨rs, _, he2⟩ := List.mem_map.mp hrm
  subst he2
  cases rs with
  | nil => exact ⟨"", rfl⟩
  | cons s rest => exact ⟨s, rfl⟩

theorem mapExcept_ok {α β : Type} (f : α → Except String β) (l : List α)
    (h : ∀ a ∈ l, ∃ b, f a = .ok b) : ∃ bs, mapExcept f l = .ok bs := by
  induction l with
  | nil => exact ⟨[], rfl⟩
  | cons a as ih =>
      obtain ⟨b, hb⟩ := h a (List.mem_cons_self _ _)
      obtain ⟨bs, hbs⟩ := ih (fun a ha => h a (List.mem_cons_of_mem _ ha))
      exact ⟨b :: bs, by simp [mapExcept, hb, hbs]⟩

theorem mapIdxExcept_ok {α β : Type} (f : α → Nat → Except String β) (l : List α) :
    ∀ i : Nat, (∀ a ∈ l, ∀ j : Nat, ∃ b, f a j = .ok b) →
      ∃ bs, mapIdxExcept f l i = .ok bs := by
  induction l with
  | nil => intro i _; exact ⟨[], rfl⟩
  | cons a as ih =>
      intro i h
      obtain ⟨b, hb⟩ := h a (List.mem_cons_self _ _) i
      obtain ⟨bs, hbs⟩ := ih (i + 1) (fun a ha j => h a (List.mem_cons_of_mem _ ha) j)
      exact ⟨b :: bs, by simp [mapIdxExcept, hb, hbs]⟩

theorem importVertical_toCells_ok (ss : List (List String)) :
    ∃ v, importVertical (toCells ss) = .ok v := by
  have hall : ∀ c ∈ allKeysOf (toCells ss), ∀ j : Nat,
      ∃ b, ((capitalizeKeyJS c j).map (fun nm => ImportedCol.mk c nm)) = .ok b := by
    intro c hc j
    obtain ⟨s, rfl⟩ := allKeysOf_toCells_str ss c hc
    exact ⟨_, rfl⟩
  obtain ⟨cols, hcols⟩ := mapIdxExcept_ok
    (fun k i => (capitalizeKeyJS k i).map (fun nm => ImportedCol.mk k nm))
    (allKeysOf (toCells ss)) 0 hall
  exact ⟨_, importVertical_eq (toCells ss) cols hcols⟩

theorem importHorizontal_toCells_ok (ss : List (List String)) :
    ∃ v, importHorizontal (toCells ss) = .ok v := by
  rw [importHorizontal]
  cases hg : (toCells ss).get? (chooseHeaderRow (toCells ss)) with
  | none =>
      simp only [hg]
      exact ⟨none, rfl⟩
  | some headers =>
      have hmem : headers ∈ toCells ss := List.get?_mem hg
      obtain ⟨rs, _, he⟩ := List.mem_map.mp hmem
      have hstrs : ∀ c ∈ headers, ∃ s, c = .str s := by
        intro c hc
        rw [← he] at hc
        obtain ⟨s, _, he2⟩ := List.mem_map.mp hc
        exact ⟨s, he2.symm⟩
      obtain ⟨nh, hnh⟩ := mapExcept_ok normalizeKeyJS headers
        (fun c hc => by
          obtain ⟨s, rfl⟩ := hstrs c hc
          exact ⟨_, rfl⟩)
      simp only [hg, hnh]
      exact ⟨_, rfl⟩

/-- C4 (amended).  On any sheet of string cells the import terminates
normally without a thrown `TypeError` (every result is `.ok`), and on
the empty sheet it returns without a grid update.  (The unrestricted
claim — no crash on every input — is refuted by
`handleImportExcel_noCrash_counterexample`: a sheet containing a
non-zero numeric cell in the guessed header row throws, since
`normalizeKey` calls `.trim()` on a number.) -/
theorem handleImportExcel_noCrash_spec :
    (∀ ss : List (List String), ∃ v, handleImportExcel (toCells ss) = .ok v) ∧
    handleImportExcel [] = .ok none := by
  constructor
  · intro ss
    by_cases hne : toCells ss = []
    · rw [hne]
      exact ⟨none, rfl⟩
    · by_cases hv : isVerticalSheet (toCells ss) = true
      · obtain ⟨v, hvk⟩ := importVertical_toCells_ok ss
        exact ⟨v, by rw [(handleImportExcel_branch _ hne).2 hv, hvk]⟩
      · obtain ⟨v, hvk⟩ := importHorizontal_toCells_ok ss
        exact ⟨v,
          by rw [(handleImportExcel_branch _ hne).1 (by simpa using hv), hvk]⟩
  · rfl

/-- C4 counterexample.  The one-cell sheet holding the number `2021` —
as produced by a spreadsheet with a numeric title cell — makes the import
throw: the header-normalization calls `.trim()` on the number, a
`TypeError`.  So the parser does crash on some malformed input. -/
theorem handleImportExcel_noCrash_counterexample :
    handleImportExcel [[Cell.num 2021]] = .error "TypeError" := by
  decide
